import Mathlib

/-!
Verification of the bordered 2D character grid module (AsciiMap).

The JavaScript class is shallowly embedded as follows:
* a JavaScript string is modelled as a value of type String or as its
  list of Unicode scalar values (List Char);
* JavaScript numbers passed as coordinates or dimensions are modelled as
  rationals, so that the runtime integrality checks of the source are
  expressible; the stored dimensions, which the source guarantees to be
  integers of at least 1, are modelled as naturals;
* methods that mutate the receiver and may throw are modelled as
  functions returning the updated map paired with an optional error; a
  thrown error leaves the receiver in the state it reached before the
  throw, which the pair makes explicit;
* each distinct throw site of the source becomes one constructor of
  MapError, carrying exactly the data the source interpolates into the
  message of the error;
* the filesystem is the external collaborator of the module, so
  writeToFile is modelled by toString (the text that would be written)
  and readFromFile receives the text of the file directly.
-/

/-- Errors of the module, one constructor per throw site of the source. -/
inductive MapError where
  /-- Constructor message: drawable width and height must be integers. -/
  | dimNotInteger : MapError
  /-- Constructor message: drawable width and height must be at least 1. -/
  | dimTooSmall : MapError
  /-- place message: only single ASCII characters are allowed. -/
  | invalidCharacter : MapError
  /-- place message: coordinates out of bounds, with the provided pair
  and the top of the valid inclusive range of each axis. -/
  | outOfBounds (x y : ℚ) (xHi yHi : ℤ) : MapError
  /-- move message: starting coordinates out of bounds. -/
  | startOutOfBounds (x y : ℚ) (xHi yHi : ℤ) : MapError
  /-- move message: ending coordinates out of bounds. -/
  | endOutOfBounds (x y : ℚ) (xHi yHi : ℤ) : MapError
  /-- move message: no character to move at the starting coordinates. -/
  | emptySource (x y : ℚ) : MapError
  /-- readFromFile message: map must have at least 3 lines. -/
  | tooFewLines : MapError
  /-- readFromFile message: map must have at least 3 characters per line. -/
  | tooNarrow : MapError
  /-- readFromFile message: the 1-based number of the first line whose
  length differs from the expected width, with actual and expected. -/
  | lineLengthMismatch (lineNo actual expected : ℕ) : MapError
  /-- readFromFile message: top and bottom borders must consist only of
  the dash character. -/
  | invalidTopBottomBorder : MapError
  /-- readFromFile message: the 1-based number of the first interior line
  whose side borders are not the pipe character. -/
  | invalidSideBorder (lineNo : ℕ) : MapError
  deriving DecidableEq

/-- The grid: stored drawable dimensions and the 2D array of cells. -/
structure AsciiMap where
  drawableWidth : ℕ
  drawableHeight : ℕ
  map : List (List Char)
  deriving DecidableEq

instance : Inhabited AsciiMap := ⟨⟨0, 0, []⟩⟩

/-- Total width including borders, the field width of the source. -/
def AsciiMap.width (g : AsciiMap) : ℕ := g.drawableWidth + 2

/-- Total height including borders, the field height of the source. -/
def AsciiMap.height (g : AsciiMap) : ℕ := g.drawableHeight + 2

/-- One triple of the argument of placeMultiple. -/
structure Placement where
  x : ℚ
  y : ℚ
  char : List Char
  deriving DecidableEq

deriving instance DecidableEq for Except

/-- Assignment map[row][col] = c of the source, as a pure update. -/
def setCell (m : List (List Char)) (row col : ℕ) (c : Char) : List (List Char) :=
  m.set row ((m.getD row []).set col c)

/-- Cell read map[row][col], with the blank as the out-of-range default. -/
def AsciiMap.cellAt (g : AsciiMap) (row col : ℕ) : Char :=
  (g.map.getD row []).getD col ' '

/-- Cell value chosen by the constructor loop of the source: border dashes
on the first and last row, border pipes on the first and last column,
blanks inside. -/
def initCell (width height row col : ℕ) : Char :=
  if row = 0 ∨ row = height - 1 then '-'
  else if col = 0 ∨ col = width - 1 then '|'
  else ' '

/-- The nested construction loops of the source. -/
def initMap (dw dh : ℕ) : List (List Char) :=
  (List.range (dh + 2)).map fun row =>
    (List.range (dw + 2)).map fun col => initCell (dw + 2) (dh + 2) row col

/-- The constructor of the source: integrality check, minimum check, then
allocation of the bordered map. -/
def AsciiMap.create (drawableWidth drawableHeight : ℚ) : Except MapError AsciiMap :=
  if ¬drawableWidth.isInt ∨ ¬drawableHeight.isInt then .error .dimNotInteger
  else if drawableWidth < 1 ∨ drawableHeight < 1 then .error .dimTooSmall
  else
    .ok { drawableWidth := drawableWidth.num.toNat
          drawableHeight := drawableHeight.num.toNat
          map := initMap drawableWidth.num.toNat drawableHeight.num.toNat }

/-- Method place of the source: character check, bounds check, then the
single assignment at the border-offset position. -/
def AsciiMap.place (g : AsciiMap) (x y : ℚ) (char : List Char) :
    AsciiMap × Option MapError :=
  if char.length ≠ 1 then (g, some .invalidCharacter)
  else if ¬x.isInt ∨ ¬y.isInt ∨ x < 0 ∨ (g.drawableWidth : ℚ) ≤ x
      ∨ y < 0 ∨ (g.drawableHeight : ℚ) ≤ y then
    (g, some (.outOfBounds x y ((g.drawableWidth : ℤ) - 1) ((g.drawableHeight : ℤ) - 1)))
  else
    ({ g with map := setCell g.map (y.num.toNat + 1) (x.num.toNat + 1) (char.headD ' ') },
      none)

/-- Method move of the source: bounds checks on start then end, read of
the start cell, empty-source check, then the two assignments. -/
def AsciiMap.move (g : AsciiMap) (startX startY endX endY : ℚ) :
    AsciiMap × Option MapError :=
  if ¬startX.isInt ∨ ¬startY.isInt ∨ startX < 0 ∨ (g.drawableWidth : ℚ) ≤ startX
      ∨ startY < 0 ∨ (g.drawableHeight : ℚ) ≤ startY then
    (g, some (.startOutOfBounds startX startY
      ((g.drawableWidth : ℤ) - 1) ((g.drawableHeight : ℤ) - 1)))
  else if ¬endX.isInt ∨ ¬endY.isInt ∨ endX < 0 ∨ (g.drawableWidth : ℚ) ≤ endX
      ∨ endY < 0 ∨ (g.drawableHeight : ℚ) ≤ endY then
    (g, some (.endOutOfBounds endX endY
      ((g.drawableWidth : ℤ) - 1) ((g.drawableHeight : ℤ) - 1)))
  else
    let mapStartX := startX.num.toNat + 1
    let mapStartY := startY.num.toNat + 1
    let mapEndX := endX.num.toNat + 1
    let mapEndY := endY.num.toNat + 1
    let charToMove := (g.map.getD mapStartY []).getD mapStartX ' '
    if charToMove = ' ' then (g, some (.emptySource startX startY))
    else
      let newMap := setCell (setCell g.map mapStartY mapStartX ' ') mapEndY mapEndX charToMove
      ({ g with map := newMap }, none)

/-- Method delete of the source: place a blank. -/
def AsciiMap.delete (g : AsciiMap) (x y : ℚ) : AsciiMap × Option MapError :=
  g.place x y [' ']

/-- Method clear of the source: the nested loops resetting every interior
cell to a blank. -/
def AsciiMap.clear (g : AsciiMap) : AsciiMap :=
  (List.range' 1 (g.height - 2)).foldl
    (fun acc row =>
      (List.range' 1 (g.width - 2)).foldl
        (fun acc2 col => { acc2 with map := setCell acc2.map row col ' ' }) acc)
    g

/-- Method placeMultiple of the source: place each triple in order, and
stop at the first failure, keeping the placements already applied. -/
def AsciiMap.placeMultiple (g : AsciiMap) : List Placement → AsciiMap × Option MapError
  | [] => (g, none)
  | p :: rest =>
    match g.place p.x p.y p.char with
    | (g2, none) => g2.placeMultiple rest
    | (g2, some e) => (g2, some e)

/-- Method toString of the source: rows joined by the newline character.
This is also the text written by writeToFile. -/
def AsciiMap.toString (g : AsciiMap) : List Char :=
  List.intercalate ['\n'] g.map

/-- The whitespace class used for the trim of the source (the ASCII part
of the whitespace of JavaScript; the cells relevant here are never in the
larger Unicode class either). -/
def isJsWs (c : Char) : Bool :=
  c = ' ' ∨ c = '\t' ∨ c = '\n' ∨ c = '\r' ∨ c = '\x0b' ∨ c = '\x0c'

/-- The trim call of the source: drop whitespace from both ends. -/
def jsTrim (l : List Char) : List Char :=
  ((l.dropWhile isJsWs).reverse.dropWhile isJsWs).reverse

/-- Removal of one trailing carriage return from a piece, the effect of
splitting on a newline optionally preceded by a carriage return. -/
def stripCR (l : List Char) : List Char :=
  if l.getLast? = some '\r' then l.dropLast else l

/-- The line splitting of the source: split on newlines, a carriage
return directly before a newline belonging to the separator. -/
def jsSplitLines (l : List Char) : List (List Char) :=
  (l.splitOn '\n').map stripCR

/-- The line-length loop of the source: the 1-based number and actual
length of the first line whose length is not the expected width. -/
def checkLens (width : ℕ) : ℕ → List (List Char) → Option (ℕ × ℕ)
  | _, [] => none
  | i, l :: rest =>
    if l.length ≠ width then some (i, l.length) else checkLens width (i + 1) rest

/-- The side-border loop of the source: the 1-based number of the first
interior line whose first or last character is not a pipe. -/
def checkSides (width : ℕ) : ℕ → List (List Char) → Option ℕ
  | _, [] => none
  | i, l :: rest =>
    if l.getD 0 ' ' ≠ '|' ∨ l.getD (width - 1) ' ' ≠ '|' then some i
    else checkSides width (i + 1) rest

/-- The population loops of readFromFile: copy every interior character
of the parsed lines into the freshly constructed map. -/
def populate (lines : List (List Char)) (dw dh : ℕ) (inst : AsciiMap) : AsciiMap :=
  (List.range dh).foldl
    (fun acc y =>
      (List.range dw).foldl
        (fun acc2 x =>
          { acc2 with map := setCell acc2.map (y + 1) (x + 1) ((lines.getD (y + 1) []).getD (x + 1) ' ') })
        acc)
    inst

/-- Static method readFromFile of the source, applied to the text of the
file: trim and split, the five validations in source order, construction,
and population of the interior. -/
def AsciiMap.readFromFile (content : List Char) : Except MapError AsciiMap :=
  let lines := jsSplitLines (jsTrim content)
  let height := lines.length
  if height < 3 then .error .tooFewLines
  else
    let width := (lines.headD []).length
    if width < 3 then .error .tooNarrow
    else
      match checkLens width 1 lines with
      | some (n, a) => .error (.lineLengthMismatch n a width)
      | none =>
        if lines.getD 0 [] ≠ List.replicate width '-'
            ∨ lines.getD (height - 1) [] ≠ List.replicate width '-' then
          .error .invalidTopBottomBorder
        else
          match checkSides width 2 ((lines.drop 1).dropLast) with
          | some n => .error (.invalidSideBorder n)
          | none =>
            match AsciiMap.create ((width - 2 : ℕ) : ℚ) ((height - 2 : ℕ) : ℚ) with
            | .error e => .error e
            | .ok inst => .ok (populate lines (width - 2) (height - 2) inst)

/-- Extraction of the grid of a successful construction or parse. -/
def getOk (e : Except MapError AsciiMap) : AsciiMap :=
  e.toOption.getD default

/-- Shape invariant of a grid: positive drawable dimensions, a map of
exactly height rows each of exactly width cells, a top and bottom row of
dashes, and pipes at both ends of every interior row. -/
structure WF (g : AsciiMap) : Prop where
  hw : 1 ≤ g.drawableWidth
  hh : 1 ≤ g.drawableHeight
  hlen : g.map.length = g.drawableHeight + 2
  hrows : ∀ r, r < g.drawableHeight + 2 → (g.map.getD r []).length = g.drawableWidth + 2
  htop : ∀ c, c < g.drawableWidth + 2 → g.cellAt 0 c = '-'
  hbot : ∀ c, c < g.drawableWidth + 2 → g.cellAt (g.drawableHeight + 1) c = '-'
  hleft : ∀ r, 1 ≤ r → r ≤ g.drawableHeight → g.cellAt r 0 = '|'
  hright : ∀ r, 1 ≤ r → r ≤ g.drawableHeight → g.cellAt r (g.drawableWidth + 1) = '|'

/-- No cell of the grid holds a newline character. -/
def NoNL (g : AsciiMap) : Prop := ∀ r c, g.cellAt r c ≠ '\n'

/-- Grids obtainable by construction followed by any sequence of
successful place, move, clear and placeMultiple calls in which no placed
character is the newline character. -/
inductive ReachNN : AsciiMap → Prop where
  | create (w h : ℚ) (g : AsciiMap) :
      AsciiMap.create w h = .ok g → ReachNN g
  | place (g : AsciiMap) (x y : ℚ) (c : List Char) (g2 : AsciiMap) :
      ReachNN g → '\n' ∉ c → g.place x y c = (g2, none) → ReachNN g2
  | move (g : AsciiMap) (a b d e : ℚ) (g2 : AsciiMap) :
      ReachNN g → g.move a b d e = (g2, none) → ReachNN g2
  | clear (g : AsciiMap) : ReachNN g → ReachNN g.clear
  | placeMultiple (g : AsciiMap) (ps : List Placement) (g2 : AsciiMap) :
      ReachNN g → (∀ p ∈ ps, '\n' ∉ p.char) → g.placeMultiple ps = (g2, none) →
      ReachNN g2

/-- Grids obtainable by construction or parse followed by any sequence of
place, move, delete, clear and placeMultiple calls with any outcome (a
failed call, including a partial placeMultiple, leaves the state the
transition records). -/
inductive Reach : AsciiMap → Prop where
  | create (w h : ℚ) (g : AsciiMap) :
      AsciiMap.create w h = .ok g → Reach g
  | readFromFile (content : List Char) (g : AsciiMap) :
      AsciiMap.readFromFile content = .ok g → Reach g
  | place (g : AsciiMap) (x y : ℚ) (c : List Char) (g2 : AsciiMap) (e : Option MapError) :
      Reach g → g.place x y c = (g2, e) → Reach g2
  | move (g : AsciiMap) (a b d dd ee : ℚ) (g2 : AsciiMap) (e : Option MapError) :
      Reach g → g.move a b dd ee = (g2, e) → Reach g2
  | delete (g : AsciiMap) (x y : ℚ) (g2 : AsciiMap) (e : Option MapError) :
      Reach g → g.delete x y = (g2, e) → Reach g2
  | clear (g : AsciiMap) : Reach g → Reach g.clear
  | placeMultiple (g : AsciiMap) (ps : List Placement) (g2 : AsciiMap) (e : Option MapError) :
      Reach g → g.placeMultiple ps = (g2, e) → Reach g2

/-- Modelled from the words of the specification: a printable or space
character (control characters are not printable). -/
def specPrintableOrSpace (c : Char) : Bool :=
  c = ' ' ∨ (32 ≤ c.toNat ∧ c.toNat ≠ 127)

theorem getD_set_self {α : Type} (l : List α) (n : ℕ) (a d : α) (h : n < l.length) :
    (l.set n a).getD n d = a := by
  rw [List.getD_eq_getElem _ _ (by simpa using h), List.getElem_set, if_pos rfl]

theorem getD_set_ne {α : Type} (l : List α) (m n : ℕ) (a d : α) (h : m ≠ n) :
    (l.set m a).getD n d = l.getD n d := by
  rw [List.getD_eq_getElem?_getD, List.getElem?_set, if_neg h, ← List.getD_eq_getElem?_getD]

theorem getD_set_cases {α : Type} (l : List α) (m n : ℕ) (a d : α) :
    (l.set m a).getD n d = l.getD n d ∨ (l.set m a).getD n d = a := by
  by_cases h : m = n
  · subst h
    by_cases hn : m < l.length
    · exact Or.inr (getD_set_self l m a d hn)
    · rw [List.set_eq_of_length_le (Nat.le_of_not_lt hn)]
      exact Or.inl rfl
  · exact Or.inl (getD_set_ne l m n a d h)

theorem setCell_length (m : List (List Char)) (row col : ℕ) (c : Char) :
    (setCell m row col c).length = m.length :=
  List.length_set ..

theorem setCell_rowLength (m : List (List Char)) (row col : ℕ) (c : Char) (r : ℕ) :
    ((setCell m row col c).getD r []).length = (m.getD r []).length := by
  unfold setCell
  by_cases h : row = r
  · subst h
    by_cases hr : row < m.length
    · rw [getD_set_self _ _ _ _ hr, List.length_set]
    · rw [List.set_eq_of_length_le (Nat.le_of_not_lt hr)]
  · rw [getD_set_ne _ _ _ _ _ h]

theorem setCell_get_same (m : List (List Char)) (r c : ℕ) (ch : Char)
    (hr : r < m.length) (hc : c < (m.getD r []).length) :
    ((setCell m r c ch).getD r []).getD c ' ' = ch := by
  unfold setCell
  rw [getD_set_self _ _ _ _ hr, getD_set_self _ _ _ _ hc]

theorem setCell_get_ne (m : List (List Char)) (r c : ℕ) (ch : Char) (r' c' : ℕ)
    (h : r' ≠ r ∨ c' ≠ c) :
    ((setCell m r c ch).getD r' []).getD c' ' ' = (m.getD r' []).getD c' ' ' := by
  unfold setCell
  by_cases hr : r = r'
  · subst hr
    have hc : c' ≠ c := by
      rcases h with h | h
      · exact absurd rfl h
      · exact h
    by_cases hlt : r < m.length
    · rw [getD_set_self _ _ _ _ hlt, getD_set_ne _ _ _ _ _ (Ne.symm hc)]
    · rw [List.set_eq_of_length_le (Nat.le_of_not_lt hlt)]
  · rw [getD_set_ne _ _ _ _ _ hr]

theorem setCell_get_cases (m : List (List Char)) (r c : ℕ) (ch : Char) (r' c' : ℕ) :
    ((setCell m r c ch).getD r' []).getD c' ' ' = (m.getD r' []).getD c' ' '
    ∨ ((setCell m r c ch).getD r' []).getD c' ' ' = ch := by
  by_cases hr : r' = r
  · subst hr
    by_cases hc : c' = c
    · subst hc
      by_cases hlt : r' < m.length
      · by_cases hclt : c' < (m.getD r' []).length
        · exact Or.inr (setCell_get_same m r' c' ch hlt hclt)
        · unfold setCell
          rw [getD_set_self _ _ _ _ hlt,
            List.set_eq_of_length_le (Nat.le_of_not_lt hclt)]
          exact Or.inl rfl
      · unfold setCell
        rw [List.set_eq_of_length_le (Nat.le_of_not_lt hlt)]
        exact Or.inl rfl
    · exact Or.inl (setCell_get_ne m r' c ch r' c' (Or.inr hc))
  · exact Or.inl (setCell_get_ne m r c ch r' c' (Or.inl hr))

theorem rat_natCast_isInt (n : ℕ) : ((n : ℚ)).isInt = true := by
  simp [Rat.isInt, Rat.den_natCast]

theorem rat_natCast_num_toNat (n : ℕ) : ((n : ℚ)).num.toNat = n := by
  simp [Rat.num_natCast]

theorem rat_guard_num_lt {q : ℚ} {n : ℕ} (hq : q.isInt = true) (h0 : ¬q < 0)
    (hn : ¬(n : ℚ) ≤ q) : q.num.toNat < n ∧ (q.num.toNat : ℚ) = q := by
  have hden : q.den = 1 := by simpa [Rat.isInt] using hq
  have hq' : (q.num : ℚ) = q := (Rat.den_eq_one_iff q).mp hden
  have h0' : (0 : ℤ) ≤ q.num := Rat.num_nonneg.mpr (not_lt.mp h0)
  have hlt : q < (n : ℚ) := not_le.mp hn
  have hnum : q.num < (n : ℤ) := by
    rw [← hq'] at hlt
    exact_mod_cast hlt
  constructor
  · omega
  · rw [← hq']
    norm_cast
    omega

theorem initMap_length (dw dh : ℕ) : (initMap dw dh).length = dh + 2 := by
  simp [initMap]

theorem initMap_rowLength (dw dh r : ℕ) (hr : r < dh + 2) :
    ((initMap dw dh).getD r []).length = dw + 2 := by
  unfold initMap
  rw [List.getD_eq_getElem _ _ (by simpa using hr)]
  simp

theorem initMap_get (dw dh r c : ℕ) (hr : r < dh + 2) (hc : c < dw + 2) :
    ((initMap dw dh).getD r []).getD c ' ' = initCell (dw + 2) (dh + 2) r c := by
  have hrow : (initMap dw dh).getD r []
      = (List.range (dw + 2)).map fun col => initCell (dw + 2) (dh + 2) r col := by
    unfold initMap
    rw [List.getD_eq_getElem _ _ (by simpa using hr)]
    simp
  rw [hrow, List.getD_eq_getElem _ _ (by simpa using hc)]
  simp

theorem create_ok_elim {w h : ℚ} {g : AsciiMap} (hok : AsciiMap.create w h = .ok g) :
    g.drawableWidth = w.num.toNat ∧ g.drawableHeight = h.num.toNat
    ∧ g.map = initMap w.num.toNat h.num.toNat
    ∧ 1 ≤ g.drawableWidth ∧ 1 ≤ g.drawableHeight := by
  unfold AsciiMap.create at hok
  by_cases h1 : ¬w.isInt ∨ ¬h.isInt
  · rw [if_pos h1] at hok
    exact absurd hok (by simp)
  · rw [if_neg h1] at hok
    by_cases h2 : w < 1 ∨ h < 1
    · rw [if_pos h2] at hok
      exact absurd hok (by simp)
    · rw [if_neg h2] at hok
      push_neg at h1 h2
      have hwint : w.isInt = true := by simpa using h1.1
      have hden : w.den = 1 := by simpa [Rat.isInt] using hwint
      have hw' : (w.num : ℚ) = w := (Rat.den_eq_one_iff w).mp hden
      have hhint : h.isInt = true := by simpa using h1.2
      have hhden : h.den = 1 := by simpa [Rat.isInt] using hhint
      have hh' : (h.num : ℚ) = h := (Rat.den_eq_one_iff h).mp hhden
      have hw1 : (1 : ℤ) ≤ w.num := by
        have := h2.1
        rw [← hw'] at this
        exact_mod_cast this
      have hh1 : (1 : ℤ) ≤ h.num := by
        have := h2.2
        rw [← hh'] at this
        exact_mod_cast this
      have := Except.ok.inj hok
      subst this
      refine ⟨rfl, rfl, rfl, ?_, ?_⟩ <;> simp <;> omega

theorem cellAt_default_row (g : AsciiMap) (r c : ℕ) (h : g.map.length ≤ r) :
    g.cellAt r c = ' ' := by
  unfold AsciiMap.cellAt
  rw [List.getD_eq_default _ _ h]
  simp

theorem cellAt_default_col (g : AsciiMap) (r c : ℕ)
    (h : (g.map.getD r []).length ≤ c) : g.cellAt r c = ' ' := by
  unfold AsciiMap.cellAt
  rw [List.getD_eq_default _ _ h]

theorem create_WF {w h : ℚ} {g : AsciiMap} (hok : AsciiMap.create w h = .ok g) :
    WF g ∧ NoNL g := by
  obtain ⟨hdw, hdh, hmap, hw1, hh1⟩ := create_ok_elim hok
  have hmap' : g.map = initMap g.drawableWidth g.drawableHeight := by
    rw [hdw, hdh]; exact hmap
  have hcell : ∀ r c, r < g.drawableHeight + 2 → c < g.drawableWidth + 2 →
      g.cellAt r c = initCell (g.drawableWidth + 2) (g.drawableHeight + 2) r c := by
    intro r c hr hc
    unfold AsciiMap.cellAt
    rw [hmap']
    exact initMap_get _ _ _ _ hr hc
  refine ⟨⟨hw1, hh1, ?_, ?_, ?_, ?_, ?_, ?_⟩, ?_⟩
  · rw [hmap']; exact initMap_length _ _
  · intro r hr; rw [hmap']; exact initMap_rowLength _ _ _ hr
  · intro c hc
    rw [hcell 0 c (by omega) hc]
    unfold initCell
    rw [if_pos (Or.inl rfl)]
  · intro c hc
    rw [hcell _ c (by omega) hc]
    unfold initCell
    rw [if_pos (Or.inr (by omega))]
  · intro r h1 h2
    rw [hcell r 0 (by omega) (by omega)]
    unfold initCell
    rw [if_neg (by omega), if_pos (Or.inl rfl)]
  · intro r h1 h2
    rw [hcell r _ (by omega) (by omega)]
    unfold initCell
    rw [if_neg (by omega), if_pos (Or.inr (by omega))]
  · intro r c
    by_cases hr : r < g.drawableHeight + 2
    · by_cases hc : c < g.drawableWidth + 2
      · rw [hcell r c hr hc]
        unfold initCell
        split_ifs <;> decide
      · rw [cellAt_default_col g r c (by rw [hmap', initMap_rowLength _ _ _ hr]; omega)]
        decide
    · rw [cellAt_default_row g r c (by rw [hmap', initMap_length]; omega)]
      decide

theorem WF_setCell {g : AsciiMap} (hg : WF g) (r c : ℕ)
    (hr1 : 1 ≤ r) (hr2 : r ≤ g.drawableHeight)
    (hc1 : 1 ≤ c) (hc2 : c ≤ g.drawableWidth) (ch : Char) :
    WF { g with map := setCell g.map r c ch } := by
  have hget : ∀ r' c', r' ≠ r ∨ c' ≠ c →
      (AsciiMap.mk g.drawableWidth g.drawableHeight (setCell g.map r c ch)).cellAt r' c'
        = g.cellAt r' c' := by
    intro r' c' hne
    unfold AsciiMap.cellAt
    exact setCell_get_ne g.map r c ch r' c' hne
  refine ⟨hg.hw, hg.hh, ?_, ?_, ?_, ?_, ?_, ?_⟩
  · show (setCell g.map r c ch).length = _
    rw [setCell_length]; exact hg.hlen
  · intro r' hr'
    show ((setCell g.map r c ch).getD r' []).length = _
    rw [setCell_rowLength]; exact hg.hrows r' hr'
  · intro c' hc'
    dsimp only at hc' ⊢
    rw [hget 0 c' (Or.inl (by omega))]; exact hg.htop c' hc'
  · intro c' hc'
    dsimp only at hc' ⊢
    rw [hget _ c' (Or.inl (by omega))]; exact hg.hbot c' hc'
  · intro r' h1 h2
    dsimp only at h2 ⊢
    rw [hget r' 0 (Or.inr (by omega))]; exact hg.hleft r' h1 h2
  · intro r' h1 h2
    dsimp only at h2 ⊢
    rw [hget r' _ (Or.inr (by omega))]; exact hg.hright r' h1 h2

theorem NoNL_setCell {g : AsciiMap} (hg : NoNL g) (r c : ℕ) (ch : Char)
    (hch : ch ≠ '\n') : NoNL { g with map := setCell g.map r c ch } := by
  intro r' c'
  rcases setCell_get_cases g.map r c ch r' c' with hcase | hcase
  · show ((setCell g.map r c ch).getD r' []).getD c' ' ' ≠ '\n'
    rw [hcase]; exact hg r' c'
  · show ((setCell g.map r c ch).getD r' []).getD c' ' ' ≠ '\n'
    rw [hcase]; exact hch

theorem headD_mem_notNL {c : List Char} (h : '\n' ∉ c) : c.headD ' ' ≠ '\n' := by
  cases c with
  | nil => decide
  | cons a t =>
    show a ≠ '\n'
    intro ha
    exact h (ha ▸ List.mem_cons_self a t)

theorem place_ok_elim {g : AsciiMap} {x y : ℚ} {c : List Char} {g2 : AsciiMap}
    (h : g.place x y c = (g2, none)) :
    c.length = 1
    ∧ x.num.toNat < g.drawableWidth ∧ y.num.toNat < g.drawableHeight
    ∧ (x.num.toNat : ℚ) = x ∧ (y.num.toNat : ℚ) = y
    ∧ g2 = { g with
        map := setCell g.map (y.num.toNat + 1) (x.num.toNat + 1) (c.headD ' ') } := by
  unfold AsciiMap.place at h
  by_cases h1 : c.length ≠ 1
  · rw [if_pos h1] at h
    exact absurd h (by simp)
  · rw [if_neg h1] at h
    by_cases h2 : ¬x.isInt ∨ ¬y.isInt ∨ x < 0 ∨ (g.drawableWidth : ℚ) ≤ x
        ∨ y < 0 ∨ (g.drawableHeight : ℚ) ≤ y
    · rw [if_pos h2] at h
      exact absurd h (by simp)
    · rw [if_neg h2] at h
      push_neg at h1 h2
      obtain ⟨hxi, hyi, hx0, hxw, hy0, hyw⟩ := h2
      have hxq := rat_guard_num_lt (by simpa using hxi) (not_lt.mpr hx0) (not_le.mpr hxw)
      have hyq := rat_guard_num_lt (by simpa using hyi) (not_lt.mpr hy0) (not_le.mpr hyw)
      simp only [Prod.mk.injEq] at h
      exact ⟨h1, hxq.1, hyq.1, hxq.2, hyq.2, h.1.symm⟩

theorem place_fail_eq {g : AsciiMap} {x y : ℚ} {c : List Char} {g2 : AsciiMap}
    {e : MapError} (h : g.place x y c = (g2, some e)) : g2 = g := by
  unfold AsciiMap.place at h
  split_ifs at h with h1 h2
  · simp only [Prod.mk.injEq] at h
    exact h.1.symm
  · simp only [Prod.mk.injEq] at h
    exact h.1.symm
  · simp at h

theorem WF_place {g : AsciiMap} {x y : ℚ} {c : List Char} {g2 : AsciiMap}
    (hg : WF g) (h : g.place x y c = (g2, none)) : WF g2 := by
  obtain ⟨-, hxw, hyh, -, -, hg2⟩ := place_ok_elim h
  subst hg2
  exact WF_setCell hg _ _ (by omega) (by omega) (by omega) (by omega) _

theorem NoNL_place {g : AsciiMap} {x y : ℚ} {c : List Char} {g2 : AsciiMap}
    (hg : NoNL g) (hc : '\n' ∉ c) (h : g.place x y c = (g2, none)) : NoNL g2 := by
  obtain ⟨-, -, -, -, -, hg2⟩ := place_ok_elim h
  subst hg2
  exact NoNL_setCell hg _ _ _ (headD_mem_notNL hc)

theorem move_ok_elim {g : AsciiMap} {a b d e : ℚ} {g2 : AsciiMap}
    (h : g.move a b d e = (g2, none)) :
    a.num.toNat < g.drawableWidth ∧ b.num.toNat < g.drawableHeight
    ∧ d.num.toNat < g.drawableWidth ∧ e.num.toNat < g.drawableHeight
    ∧ g.cellAt (b.num.toNat + 1) (a.num.toNat + 1) ≠ ' '
    ∧ g2 = { g with
        map := setCell (setCell g.map (b.num.toNat + 1) (a.num.toNat + 1) ' ')
          (e.num.toNat + 1) (d.num.toNat + 1)
          (g.cellAt (b.num.toNat + 1) (a.num.toNat + 1)) } := by
  unfold AsciiMap.move at h
  by_cases h1 : ¬a.isInt ∨ ¬b.isInt ∨ a < 0 ∨ (g.drawableWidth : ℚ) ≤ a
      ∨ b < 0 ∨ (g.drawableHeight : ℚ) ≤ b
  · rw [if_pos h1] at h
    exact absurd h (by simp)
  · rw [if_neg h1] at h
    by_cases h2 : ¬d.isInt ∨ ¬e.isInt ∨ d < 0 ∨ (g.drawableWidth : ℚ) ≤ d
        ∨ e < 0 ∨ (g.drawableHeight : ℚ) ≤ e
    · rw [if_pos h2] at h
      exact absurd h (by simp)
    · rw [if_neg h2] at h
      dsimp only at h
      by_cases h3 : (g.map.getD (b.num.toNat + 1) []).getD (a.num.toNat + 1) ' ' = ' '
      · rw [if_pos h3] at h
        exact absurd h (by simp)
      · rw [if_neg h3] at h
        push_neg at h1 h2
        obtain ⟨hai, hbi, ha0, haw, hb0, hbh⟩ := h1
        obtain ⟨hdi, hei, hd0, hdw, he0, heh⟩ := h2
        have haq := rat_guard_num_lt (by simpa using hai) (not_lt.mpr ha0) (not_le.mpr haw)
        have hbq := rat_guard_num_lt (by simpa using hbi) (not_lt.mpr hb0) (not_le.mpr hbh)
        have hdq := rat_guard_num_lt (by simpa using hdi) (not_lt.mpr hd0) (not_le.mpr hdw)
        have heq := rat_guard_num_lt (by simpa using hei) (not_lt.mpr he0) (not_le.mpr heh)
        simp only [Prod.mk.injEq] at h
        exact ⟨haq.1, hbq.1, hdq.1, heq.1, h3, h.1.symm⟩

theorem move_fail_eq {g : AsciiMap} {a b d e : ℚ} {g2 : AsciiMap} {err : MapError}
    (h : g.move a b d e = (g2, some err)) : g2 = g := by
  unfold AsciiMap.move at h
  by_cases h1 : ¬a.isInt ∨ ¬b.isInt ∨ a < 0 ∨ (g.drawableWidth : ℚ) ≤ a
      ∨ b < 0 ∨ (g.drawableHeight : ℚ) ≤ b
  · rw [if_pos h1] at h
    simp only [Prod.mk.injEq] at h
    exact h.1.symm
  · rw [if_neg h1] at h
    by_cases h2 : ¬d.isInt ∨ ¬e.isInt ∨ d < 0 ∨ (g.drawableWidth : ℚ) ≤ d
        ∨ e < 0 ∨ (g.drawableHeight : ℚ) ≤ e
    · rw [if_pos h2] at h
      simp only [Prod.mk.injEq] at h
      exact h.1.symm
    · rw [if_neg h2] at h
      dsimp only at h
      by_cases h3 : (g.map.getD (b.num.toNat + 1) []).getD (a.num.toNat + 1) ' ' = ' '
      · rw [if_pos h3] at h
        simp only [Prod.mk.injEq] at h
        exact h.1.symm
      · rw [if_neg h3] at h
        simp at h

theorem WF_move {g : AsciiMap} {a b d e : ℚ} {g2 : AsciiMap}
    (hg : WF g) (h : g.move a b d e = (g2, none)) : WF g2 := by
  obtain ⟨haw, hbh, hdw, heh, -, hg2⟩ := move_ok_elim h
  subst hg2
  have h1 := WF_setCell hg (b.num.toNat + 1) (a.num.toNat + 1)
    (by omega) (by omega) (by omega) (by omega) ' '
  exact WF_setCell h1 (e.num.toNat + 1) (d.num.toNat + 1)
    (show 1 ≤ e.num.toNat + 1 by omega) (show e.num.toNat + 1 ≤ g.drawableHeight by omega)
    (show 1 ≤ d.num.toNat + 1 by omega) (show d.num.toNat + 1 ≤ g.drawableWidth by omega)
    _

theorem NoNL_move {g : AsciiMap} {a b d e : ℚ} {g2 : AsciiMap}
    (hg : NoNL g) (h : g.move a b d e = (g2, none)) : NoNL g2 := by
  obtain ⟨-, -, -, -, -, hg2⟩ := move_ok_elim h
  subst hg2
  have h1 := NoNL_setCell hg (b.num.toNat + 1) (a.num.toNat + 1) ' ' (by decide)
  exact NoNL_setCell h1 (e.num.toNat + 1) (d.num.toNat + 1) _
    (hg (b.num.toNat + 1) (a.num.toNat + 1))

theorem foldl_preserve {α β : Type} (P : α → Prop) (f : α → β → α) :
    ∀ (l : List β) (a : α), P a → (∀ x a2, x ∈ l → P a2 → P (f a2 x)) →
    P (l.foldl f a) := by
  intro l
  induction l with
  | nil =>
    intro a ha _
    simpa using ha
  | cons b t ih =>
    intro a ha hstep
    rw [List.foldl_cons]
    exact ih (f a b) (hstep b a (List.mem_cons_self b t) ha)
      fun x a2 hx ha2 => hstep x a2 (List.mem_cons_of_mem b hx) ha2

theorem clear_preserves_WF {g : AsciiMap} (hg : WF g) : WF g.clear := by
  have hh : g.height = g.drawableHeight + 2 := rfl
  have hw : g.width = g.drawableWidth + 2 := rfl
  unfold AsciiMap.clear
  refine (foldl_preserve
    (fun a => WF a ∧ a.drawableWidth = g.drawableWidth ∧ a.drawableHeight = g.drawableHeight)
    _ _ g ⟨hg, rfl, rfl⟩ ?_).1
  intro row acc hrow hacc
  obtain ⟨hwf, hdw, hdh⟩ := hacc
  refine foldl_preserve
    (fun a => WF a ∧ a.drawableWidth = g.drawableWidth ∧ a.drawableHeight = g.drawableHeight)
    _ _ acc ⟨hwf, hdw, hdh⟩ ?_
  intro col acc2 hcol hacc2
  obtain ⟨hwf2, hdw2, hdh2⟩ := hacc2
  have hrow' := List.mem_range'_1.mp hrow
  have hcol' := List.mem_range'_1.mp hcol
  refine ⟨?_, hdw2, hdh2⟩
  exact WF_setCell hwf2 row col
    (show 1 ≤ row by omega)
    (show row ≤ acc2.drawableHeight by rw [hdh2]; omega)
    (show 1 ≤ col by omega)
    (show col ≤ acc2.drawableWidth by rw [hdw2]; omega)
    ' '

theorem clear_preserves_NoNL {g : AsciiMap} (hn : NoNL g) : NoNL g.clear := by
  unfold AsciiMap.clear
  refine foldl_preserve NoNL _ _ g hn ?_
  intro row acc _ hacc
  refine foldl_preserve NoNL _ _ acc hacc ?_
  intro col acc2 _ hacc2
  exact NoNL_setCell hacc2 row col ' ' (by decide)

theorem place_any_WF {g : AsciiMap} {x y : ℚ} {c : List Char} {g2 : AsciiMap}
    {e : Option MapError} (hg : WF g) (h : g.place x y c = (g2, e)) : WF g2 := by
  cases e with
  | none => exact WF_place hg h
  | some e2 => rw [place_fail_eq h]; exact hg

theorem place_any_NoNL {g : AsciiMap} {x y : ℚ} {c : List Char} {g2 : AsciiMap}
    {e : Option MapError} (hg : NoNL g) (hc : '\n' ∉ c)
    (h : g.place x y c = (g2, e)) : NoNL g2 := by
  cases e with
  | none => exact NoNL_place hg hc h
  | some e2 => rw [place_fail_eq h]; exact hg

theorem placeMultiple_preserves_WF :
    ∀ (ps : List Placement) (g g2 : AsciiMap) (e : Option MapError),
    WF g → g.placeMultiple ps = (g2, e) → WF g2 := by
  intro ps
  induction ps with
  | nil =>
    intro g g2 e hg h
    unfold AsciiMap.placeMultiple at h
    simp only [Prod.mk.injEq] at h
    rw [← h.1]
    exact hg
  | cons p rest ih =>
    intro g g2 e hg h
    unfold AsciiMap.placeMultiple at h
    rcases hp : g.place p.x p.y p.char with ⟨gm, eo⟩
    rw [hp] at h
    cases eo with
    | none =>
      dsimp only at h
      exact ih gm g2 e (WF_place hg hp) h
    | some e2 =>
      dsimp only at h
      simp only [Prod.mk.injEq] at h
      rw [← h.1, place_fail_eq hp]
      exact hg

theorem placeMultiple_preserves_NoNL :
    ∀ (ps : List Placement) (g g2 : AsciiMap) (e : Option MapError),
    NoNL g → (∀ p ∈ ps, '\n' ∉ p.char) → g.placeMultiple ps = (g2, e) → NoNL g2 := by
  intro ps
  induction ps with
  | nil =>
    intro g g2 e hg _ h
    unfold AsciiMap.placeMultiple at h
    simp only [Prod.mk.injEq] at h
    rw [← h.1]
    exact hg
  | cons p rest ih =>
    intro g g2 e hg hc h
    unfold AsciiMap.placeMultiple at h
    rcases hp : g.place p.x p.y p.char with ⟨gm, eo⟩
    rw [hp] at h
    cases eo with
    | none =>
      dsimp only at h
      exact ih gm g2 e
        (NoNL_place hg (hc p (List.mem_cons_self p rest)) hp)
        (fun q hq => hc q (List.mem_cons_of_mem p hq)) h
    | some e2 =>
      dsimp only at h
      simp only [Prod.mk.injEq] at h
      rw [← h.1, place_fail_eq hp]
      exact hg

theorem ReachNN_WF {g : AsciiMap} (h : ReachNN g) : WF g ∧ NoNL g := by
  induction h with
  | create w hh g hok => exact create_WF hok
  | place g x y c g2 hr hc hp ih => exact ⟨WF_place ih.1 hp, NoNL_place ih.2 hc hp⟩
  | move g a b d e g2 hr hm ih => exact ⟨WF_move ih.1 hm, NoNL_move ih.2 hm⟩
  | clear g hr ih => exact ⟨clear_preserves_WF ih.1, clear_preserves_NoNL ih.2⟩
  | placeMultiple g ps g2 hr hc hpm ih =>
    exact ⟨placeMultiple_preserves_WF ps g g2 none ih.1 hpm,
      placeMultiple_preserves_NoNL ps g g2 none ih.2 hc hpm⟩

theorem checkLens_none_of (width : ℕ) :
    ∀ (i : ℕ) (ls : List (List Char)), (∀ l ∈ ls, l.length = width) →
    checkLens width i ls = none := by
  intro i ls
  induction ls generalizing i with
  | nil => intro _; rfl
  | cons l rest ih =>
    intro hall
    unfold checkLens
    rw [if_neg (by simp [hall l (List.mem_cons_self l rest)])]
    exact ih (i + 1) fun q hq => hall q (List.mem_cons_of_mem l hq)

theorem checkLens_none_elim (width : ℕ) :
    ∀ (i : ℕ) (ls : List (List Char)), checkLens width i ls = none →
    ∀ l ∈ ls, l.length = width := by
  intro i ls
  induction ls generalizing i with
  | nil => intro _ l hl; cases hl
  | cons l rest ih =>
    intro h q hq
    unfold checkLens at h
    by_cases hl : l.length ≠ width
    · rw [if_pos hl] at h
      cases h
    · rw [if_neg hl] at h
      rcases List.mem_cons.mp hq with hq | hq
      · subst hq
        exact not_ne_iff.mp hl
      · exact ih (i + 1) h q hq

theorem checkSides_none_of (width : ℕ) :
    ∀ (i : ℕ) (ls : List (List Char)),
    (∀ l ∈ ls, l.getD 0 ' ' = '|' ∧ l.getD (width - 1) ' ' = '|') →
    checkSides width i ls = none := by
  intro i ls
  induction ls generalizing i with
  | nil => intro _; rfl
  | cons l rest ih =>
    intro hall
    unfold checkSides
    have hl := hall l (List.mem_cons_self l rest)
    rw [if_neg (by push_neg; exact hl)]
    exact ih (i + 1) fun q hq => hall q (List.mem_cons_of_mem l hq)

theorem headD_eq_getD_zero {α : Type} (l : List α) (d : α) : l.headD d = l.getD 0 d := by
  cases l <;> simp

theorem stripCR_eq_self {l : List Char} (h : l.getLast? ≠ some '\r') : stripCR l = l := by
  unfold stripCR
  rw [if_neg h]

theorem intercalate_cons_cons (sep l1 l2 : List Char) (ls : List (List Char)) :
    List.intercalate sep (l1 :: l2 :: ls) = l1 ++ sep ++ List.intercalate sep (l2 :: ls) := by
  simp [List.intercalate]

theorem intercalate_singleton (sep l : List Char) : List.intercalate sep [l] = l := by
  simp [List.intercalate]

theorem intercalate_head? (sep : List Char) :
    ∀ (ls : List (List Char)) (l0 : List Char), ls.head? = some l0 → l0 ≠ [] →
    (List.intercalate sep ls).head? = l0.head? := by
  intro ls
  cases ls with
  | nil => intro l0 h; cases h
  | cons l rest =>
    intro l0 h hne
    have hl : l = l0 := by simpa using h
    subst hl
    cases rest with
    | nil => rw [intercalate_singleton]
    | cons l2 rest2 =>
      rw [intercalate_cons_cons]
      rw [List.append_assoc]
      exact List.head?_append_of_ne_nil _ hne

theorem intercalate_getLast? (sep : List Char) :
    ∀ (ls : List (List Char)) (lz : List Char), ls.getLast? = some lz → lz ≠ [] →
    (List.intercalate sep ls).getLast? = lz.getLast? := by
  intro ls
  induction ls with
  | nil => intro lz h; cases h
  | cons l rest ih =>
    intro lz h hne
    cases rest with
    | nil =>
      have hl : l = lz := by simpa using h
      subst hl
      rw [intercalate_singleton]
    | cons l2 rest2 =>
      rw [List.getLast?_cons_cons] at h
      have htail := ih lz h hne
      have hlast : lz.getLast? = some (lz.getLast hne) := List.getLast?_eq_getLast lz hne
      have hnenil : List.intercalate sep (l2 :: rest2) ≠ [] := by
        intro hcontra
        rw [hcontra] at htail
        rw [hlast] at htail
        cases htail
      rw [intercalate_cons_cons, List.append_assoc]
      rw [List.getLast?_append_of_ne_nil _ (by simp [hnenil])]
      rw [List.getLast?_append_of_ne_nil _ hnenil]
      exact htail

theorem jsTrim_eq_self {l : List Char} {a b : Char}
    (ha : l.head? = some a) (hb : l.getLast? = some b)
    (h1 : isJsWs a = false) (h2 : isJsWs b = false) : jsTrim l = l := by
  unfold jsTrim
  obtain ⟨a2, t, hl⟩ := List.exists_cons_of_ne_nil
    (show l ≠ [] by intro hc; rw [hc] at ha; cases ha)
  have ha2 : a2 = a := by
    rw [hl] at ha
    simpa using ha
  subst ha2
  have hd1 : l.dropWhile isJsWs = l := by
    rw [hl, List.dropWhile_cons, h1]
    simp
  rw [hd1]
  have hrev : l.reverse.head? = some b := by
    rw [List.head?_reverse]
    exact hb
  obtain ⟨b2, t2, hl2⟩ := List.exists_cons_of_ne_nil
    (show l.reverse ≠ [] by intro hc; rw [hc] at hrev; cases hrev)
  have hb2 : b2 = b := by
    rw [hl2] at hrev
    simpa using hrev
  subst hb2
  have hd2 : l.reverse.dropWhile isJsWs = l.reverse := by
    rw [hl2, List.dropWhile_cons, h2]
    simp
  rw [hd2, List.reverse_reverse]

theorem mem_map_getD {g : AsciiMap} {row : List Char} (h : row ∈ g.map) :
    ∃ r, r < g.map.length ∧ row = g.map.getD r [] := by
  obtain ⟨r, hr, hrow⟩ := List.mem_iff_getElem.mp h
  exact ⟨r, hr, by rw [List.getD_eq_getElem _ _ hr, hrow]⟩

theorem WF_row0 {g : AsciiMap} (hg : WF g) :
    g.map.getD 0 [] = List.replicate (g.drawableWidth + 2) '-' := by
  rw [List.eq_replicate_iff]
  refine ⟨hg.hrows 0 (by omega), ?_⟩
  intro b hb
  obtain ⟨c, hc, hchar⟩ := List.mem_iff_getElem.mp hb
  have hlen := hg.hrows 0 (by omega)
  have : g.cellAt 0 c = '-' := hg.htop c (by omega)
  unfold AsciiMap.cellAt at this
  rw [List.getD_eq_getElem _ _ hc] at this
  rw [← hchar, this]

theorem WF_rowLast {g : AsciiMap} (hg : WF g) :
    g.map.getD (g.drawableHeight + 1) [] = List.replicate (g.drawableWidth + 2) '-' := by
  rw [List.eq_replicate_iff]
  refine ⟨hg.hrows _ (by omega), ?_⟩
  intro b hb
  obtain ⟨c, hc, hchar⟩ := List.mem_iff_getElem.mp hb
  have hlen := hg.hrows (g.drawableHeight + 1) (by omega)
  have : g.cellAt (g.drawableHeight + 1) c = '-' := hg.hbot c (by omega)
  unfold AsciiMap.cellAt at this
  rw [List.getD_eq_getElem _ _ hc] at this
  rw [← hchar, this]

theorem map_ne_nil {g : AsciiMap} (hg : WF g) : g.map ≠ [] :=
  List.length_pos.mp (by rw [hg.hlen]; omega)

theorem NoNL_rows {g : AsciiMap} (hn : NoNL g) : ∀ row ∈ g.map, '\n' ∉ row := by
  intro row hrow hmem
  obtain ⟨r, hr, hrow'⟩ := List.mem_iff_getElem.mp hrow
  obtain ⟨c, hc, hchar⟩ := List.mem_iff_getElem.mp hmem
  apply hn r c
  unfold AsciiMap.cellAt
  rw [List.getD_eq_getElem _ _ hr, hrow', List.getD_eq_getElem _ _ hc, hchar]

theorem WF_row_getLast? {g : AsciiMap} (hg : WF g) {r : ℕ}
    (hr : r < g.drawableHeight + 2) :
    (g.map.getD r []).getLast? = some (g.cellAt r (g.drawableWidth + 1)) := by
  have hlen := hg.hrows r hr
  have hb : g.drawableWidth + 1 < (g.map.getD r []).length := by omega
  rw [List.getLast?_eq_getElem?, hlen]
  have : g.drawableWidth + 2 - 1 = g.drawableWidth + 1 := by omega
  rw [this, List.getElem?_eq_getElem hb]
  unfold AsciiMap.cellAt
  rw [List.getD_eq_getElem _ _ hb]

theorem WF_lastcol {g : AsciiMap} (hg : WF g) {r : ℕ}
    (hr : r < g.drawableHeight + 2) :
    g.cellAt r (g.drawableWidth + 1) = '-' ∨ g.cellAt r (g.drawableWidth + 1) = '|' := by
  by_cases h0 : r = 0
  · subst h0
    exact Or.inl (hg.htop _ (by omega))
  · by_cases hl : r = g.drawableHeight + 1
    · subst hl
      exact Or.inl (hg.hbot _ (by omega))
    · exact Or.inr (hg.hright r (by omega) (by omega))

theorem WF_rows_stripCR {g : AsciiMap} (hg : WF g) :
    ∀ row ∈ g.map, stripCR row = row := by
  intro row hrow
  obtain ⟨r, hr, hrow'⟩ := mem_map_getD hrow
  have hr' : r < g.drawableHeight + 2 := by rw [hg.hlen] at hr; exact hr
  apply stripCR_eq_self
  rw [hrow', WF_row_getLast? hg hr']
  rcases WF_lastcol hg hr' with h | h <;> rw [h] <;> decide

theorem toString_head? {g : AsciiMap} (hg : WF g) : g.toString.head? = some '-' := by
  have hrow0 : g.map.head? = some (g.map.getD 0 []) := by
    rw [List.head?_eq_getElem?,
      List.getElem?_eq_getElem (show 0 < g.map.length by rw [hg.hlen]; omega)]
    rw [List.getD_eq_getElem _ _ (show 0 < g.map.length by rw [hg.hlen]; omega)]
  have hne : g.map.getD 0 [] ≠ [] := by
    rw [WF_row0 hg]
    simp
  unfold AsciiMap.toString
  rw [intercalate_head? _ g.map _ hrow0 hne, WF_row0 hg]
  have : g.drawableWidth + 2 = (g.drawableWidth + 1) + 1 := by omega
  rw [this, List.replicate_succ]
  rfl

theorem toString_getLast? {g : AsciiMap} (hg : WF g) :
    g.toString.getLast? = some '-' := by
  have hlast : g.map.getLast? = some (g.map.getD (g.drawableHeight + 1) []) := by
    rw [List.getLast?_eq_getElem?, hg.hlen]
    have h1 : g.drawableHeight + 2 - 1 = g.drawableHeight + 1 := by omega
    have h2 : g.drawableHeight + 1 < g.map.length := by rw [hg.hlen]; omega
    rw [h1, List.getElem?_eq_getElem h2, List.getD_eq_getElem _ _ h2]
  have hne : g.map.getD (g.drawableHeight + 1) [] ≠ [] := by
    rw [WF_rowLast hg]
    simp
  unfold AsciiMap.toString
  rw [intercalate_getLast? _ g.map _ hlast hne, WF_rowLast hg]
  have : g.drawableWidth + 2 = (g.drawableWidth + 1) + 1 := by omega
  rw [this]
  rw [List.getLast?_eq_getElem?]
  simp

theorem toString_trim {g : AsciiMap} (hg : WF g) : jsTrim g.toString = g.toString :=
  jsTrim_eq_self (toString_head? hg) (toString_getLast? hg) (by decide) (by decide)

theorem toString_splitLines {g : AsciiMap} (hg : WF g) (hn : NoNL g) :
    jsSplitLines (jsTrim g.toString) = g.map := by
  rw [toString_trim hg]
  unfold jsSplitLines
  have hsplit : (g.toString).splitOn '\n' = g.map := by
    unfold AsciiMap.toString
    exact List.splitOn_intercalate g.map '\n' (NoNL_rows hn) (map_ne_nil hg)
  rw [hsplit]
  calc g.map.map stripCR = g.map.map id :=
        List.map_congr_left fun row hrow => WF_rows_stripCR hg row hrow
    _ = g.map := List.map_id g.map

theorem populate_inner (lines : List (List Char)) (dw dh y : ℕ) (hy : y < dh) :
    ∀ (k : ℕ) (acc : AsciiMap), k ≤ dw →
    acc.map.length = dh + 2 →
    (∀ r, r < dh + 2 → (acc.map.getD r []).length = dw + 2) →
    ((List.range k).foldl
      (fun acc2 x => { acc2 with map := setCell acc2.map (y + 1) (x + 1) ((lines.getD (y + 1) []).getD (x + 1) ' ') })
      acc).drawableWidth = acc.drawableWidth
    ∧ ((List.range k).foldl
      (fun acc2 x => { acc2 with map := setCell acc2.map (y + 1) (x + 1) ((lines.getD (y + 1) []).getD (x + 1) ' ') })
      acc).drawableHeight = acc.drawableHeight
    ∧ ((List.range k).foldl
      (fun acc2 x => { acc2 with map := setCell acc2.map (y + 1) (x + 1) ((lines.getD (y + 1) []).getD (x + 1) ' ') })
      acc).map.length = dh + 2
    ∧ (∀ r, r < dh + 2 → (((List.range k).foldl
      (fun acc2 x => { acc2 with map := setCell acc2.map (y + 1) (x + 1) ((lines.getD (y + 1) []).getD (x + 1) ' ') })
      acc).map.getD r []).length = dw + 2)
    ∧ (∀ r c, ((List.range k).foldl
      (fun acc2 x => { acc2 with map := setCell acc2.map (y + 1) (x + 1) ((lines.getD (y + 1) []).getD (x + 1) ' ') })
      acc).cellAt r c =
        if r = y + 1 ∧ 1 ≤ c ∧ c ≤ k then (lines.getD r []).getD c ' '
        else acc.cellAt r c) := by
  intro k acc
  induction k with
  | zero =>
    intro _ hlen hrows
    simp only [List.range_zero, List.foldl_nil]
    refine ⟨trivial, trivial, hlen, hrows, ?_⟩
    intro r c
    rw [if_neg (by omega)]
  | succ k ih =>
    intro hk hlen hrows
    obtain ⟨ih1, ih2, ih3, ih4, ih5⟩ := ih (by omega) hlen hrows
    rw [List.range_succ, List.foldl_append, List.foldl_cons, List.foldl_nil]
    dsimp only
    refine ⟨ih1, ih2, ?_, ?_, ?_⟩
    · show (setCell _ _ _ _).length = _
      rw [setCell_length]
      exact ih3
    · intro r hr
      show ((setCell _ _ _ _).getD r []).length = _
      rw [setCell_rowLength]
      exact ih4 r hr
    · intro r c
      show ((setCell _ _ _ _).getD r []).getD c ' ' = _
      by_cases hmain : r = y + 1 ∧ c = k + 1
      · obtain ⟨hr, hc⟩ := hmain
        subst hr
        subst hc
        rw [setCell_get_same _ _ _ _ (by rw [ih3]; omega)
          (by rw [ih4 (y + 1) (by omega)]; omega)]
        rw [if_pos ⟨rfl, by omega, by omega⟩]
      · rw [setCell_get_ne _ _ _ _ _ _
          (by rcases not_and_or.mp hmain with h | h
              · exact Or.inl h
              · exact Or.inr h)]
        have hcell := ih5 r c
        unfold AsciiMap.cellAt at hcell
        rw [hcell]
        split_ifs with h1 h2 h2
        · rfl
        · exact absurd (by omega : r = y + 1 ∧ 1 ≤ c ∧ c ≤ k + 1) h2
        · exact absurd (by omega : r = y + 1 ∧ c = k + 1) hmain
        · rfl

theorem populate_outer (lines : List (List Char)) (dw dh : ℕ) :
    ∀ (m : ℕ) (inst : AsciiMap), m ≤ dh →
    inst.map.length = dh + 2 →
    (∀ r, r < dh + 2 → (inst.map.getD r []).length = dw + 2) →
    ((List.range m).foldl
      (fun acc y => (List.range dw).foldl
        (fun acc2 x => { acc2 with map := setCell acc2.map (y + 1) (x + 1) ((lines.getD (y + 1) []).getD (x + 1) ' ') })
        acc)
      inst).drawableWidth = inst.drawableWidth
    ∧ ((List.range m).foldl
      (fun acc y => (List.range dw).foldl
        (fun acc2 x => { acc2 with map := setCell acc2.map (y + 1) (x + 1) ((lines.getD (y + 1) []).getD (x + 1) ' ') })
        acc)
      inst).drawableHeight = inst.drawableHeight
    ∧ ((List.range m).foldl
      (fun acc y => (List.range dw).foldl
        (fun acc2 x => { acc2 with map := setCell acc2.map (y + 1) (x + 1) ((lines.getD (y + 1) []).getD (x + 1) ' ') })
        acc)
      inst).map.length = dh + 2
    ∧ (∀ r, r < dh + 2 → (((List.range m).foldl
      (fun acc y => (List.range dw).foldl
        (fun acc2 x => { acc2 with map := setCell acc2.map (y + 1) (x + 1) ((lines.getD (y + 1) []).getD (x + 1) ' ') })
        acc)
      inst).map.getD r []).length = dw + 2)
    ∧ (∀ r c, ((List.range m).foldl
      (fun acc y => (List.range dw).foldl
        (fun acc2 x => { acc2 with map := setCell acc2.map (y + 1) (x + 1) ((lines.getD (y + 1) []).getD (x + 1) ' ') })
        acc)
      inst).cellAt r c =
        if 1 ≤ r ∧ r ≤ m ∧ 1 ≤ c ∧ c ≤ dw then (lines.getD r []).getD c ' '
        else inst.cellAt r c) := by
  intro m inst
  induction m with
  | zero =>
    intro _ hlen hrows
    simp only [List.range_zero, List.foldl_nil]
    refine ⟨trivial, trivial, hlen, hrows, ?_⟩
    intro r c
    rw [if_neg (by omega)]
  | succ m ih =>
    intro hm hlen hrows
    obtain ⟨ih1, ih2, ih3, ih4, ih5⟩ := ih (by omega) hlen hrows
    rw [List.range_succ, List.foldl_append, List.foldl_cons, List.foldl_nil]
    obtain ⟨p1, p2, p3, p4, p5⟩ :=
      populate_inner lines dw dh m (by omega) dw _ (le_refl dw) ih3 ih4
    refine ⟨p1.trans ih1, p2.trans ih2, p3, p4, ?_⟩
    intro r c
    rw [p5 r c, ih5 r c]
    split_ifs <;> first
      | rfl
      | (exfalso; omega)

theorem populate_spec (lines : List (List Char)) (dw dh : ℕ) (inst : AsciiMap)
    (hlen : inst.map.length = dh + 2)
    (hrows : ∀ r, r < dh + 2 → (inst.map.getD r []).length = dw + 2) :
    (populate lines dw dh inst).drawableWidth = inst.drawableWidth
    ∧ (populate lines dw dh inst).drawableHeight = inst.drawableHeight
    ∧ (populate lines dw dh inst).map.length = dh + 2
    ∧ (∀ r, r < dh + 2 → ((populate lines dw dh inst).map.getD r []).length = dw + 2)
    ∧ ∀ r c, (populate lines dw dh inst).cellAt r c =
        if 1 ≤ r ∧ r ≤ dh ∧ 1 ≤ c ∧ c ≤ dw then (lines.getD r []).getD c ' '
        else inst.cellAt r c := by
  unfold populate
  exact populate_outer lines dw dh dh inst (le_refl dh) hlen hrows

theorem create_natCast (dw dh : ℕ) (h1 : 1 ≤ dw) (h2 : 1 ≤ dh) :
    AsciiMap.create (dw : ℚ) (dh : ℚ) = .ok ⟨dw, dh, initMap dw dh⟩ := by
  unfold AsciiMap.create
  rw [if_neg (by simp [rat_natCast_isInt])]
  rw [if_neg (by
    push_neg
    constructor <;> exact_mod_cast ‹_›)]
  rw [rat_natCast_num_toNat, rat_natCast_num_toNat]

theorem readFromFile_eq_ok (content : List Char) (lines : List (List Char))
    (hl : jsSplitLines (jsTrim content) = lines)
    (hheight : ¬lines.length < 3)
    (hwidth : ¬(lines.headD []).length < 3)
    (hlens : checkLens (lines.headD []).length 1 lines = none)
    (hborders : ¬(lines.getD 0 [] ≠ List.replicate (lines.headD []).length '-'
        ∨ lines.getD (lines.length - 1) [] ≠ List.replicate (lines.headD []).length '-'))
    (hsides : checkSides (lines.headD []).length 2 ((lines.drop 1).dropLast) = none) :
    AsciiMap.readFromFile content =
      match AsciiMap.create (((lines.headD []).length - 2 : ℕ) : ℚ)
          ((lines.length - 2 : ℕ) : ℚ) with
      | .error e => .error e
      | .ok inst =>
        .ok (populate lines ((lines.headD []).length - 2) (lines.length - 2) inst) := by
  unfold AsciiMap.readFromFile
  dsimp only
  rw [hl, if_neg hheight, if_neg hwidth, hlens]
  dsimp only
  rw [if_neg hborders, hsides]

theorem maps_ext {g1 g2 : AsciiMap} (hl : g1.map.length = g2.map.length)
    (hr : ∀ r, r < g1.map.length → (g1.map.getD r []).length = (g2.map.getD r []).length)
    (hc : ∀ r c, g1.cellAt r c = g2.cellAt r c) : g1.map = g2.map := by
  apply List.ext_getElem hl
  intro n h1 h2
  apply List.ext_getElem
  · have hlen := hr n h1
    rw [List.getD_eq_getElem _ _ h1, List.getD_eq_getElem _ _ h2] at hlen
    exact hlen
  · intro m hm1 hm2
    have hcell := hc n m
    unfold AsciiMap.cellAt at hcell
    rw [List.getD_eq_getElem _ _ h1, List.getD_eq_getElem _ _ h2] at hcell
    rw [List.getD_eq_getElem _ _ hm1, List.getD_eq_getElem _ _ hm2] at hcell
    exact hcell

theorem initMap_cell_eq_WF {g : AsciiMap} (hg : WF g) (r c : ℕ)
    (hnotint : ¬(1 ≤ r ∧ r ≤ g.drawableHeight ∧ 1 ≤ c ∧ c ≤ g.drawableWidth)) :
    ((initMap g.drawableWidth g.drawableHeight).getD r []).getD c ' ' = g.cellAt r c := by
  by_cases hr : r < g.drawableHeight + 2
  · by_cases hc : c < g.drawableWidth + 2
    · rw [initMap_get _ _ _ _ hr hc]
      unfold initCell
      by_cases h0 : r = 0 ∨ r = g.drawableHeight + 2 - 1
      · rw [if_pos h0]
        rcases h0 with h0 | h0
        · subst h0
          exact (hg.htop c hc).symm
        · have hrv : r = g.drawableHeight + 1 := by omega
          subst hrv
          exact (hg.hbot c hc).symm
      · rw [if_neg h0]
        by_cases hcc : c = 0 ∨ c = g.drawableWidth + 2 - 1
        · rw [if_pos hcc]
          rcases hcc with hcc | hcc
          · subst hcc
            exact (hg.hleft r (by omega) (by omega)).symm
          · have hcv : c = g.drawableWidth + 1 := by omega
            subst hcv
            exact (hg.hright r (by omega) (by omega)).symm
        · rw [if_neg hcc]
          exfalso
          omega
    · rw [List.getD_eq_default _ _ (by rw [initMap_rowLength _ _ _ hr]; omega),
        cellAt_default_col g r c (by rw [hg.hrows r hr]; omega)]
  · rw [List.getD_eq_default _ _ (show (initMap g.drawableWidth g.drawableHeight).length ≤ r by
        rw [initMap_length]; omega),
      cellAt_default_row g r c (by rw [hg.hlen]; omega)]
    rfl

theorem toString_parse_roundtrip {g : AsciiMap} (hg : WF g) (hn : NoNL g) :
    ∃ g2, AsciiMap.readFromFile g.toString = .ok g2 ∧ g2.map = g.map
      ∧ g2.drawableWidth = g.drawableWidth ∧ g2.drawableHeight = g.drawableHeight := by
  have hlines := toString_splitLines hg hn
  have hhead : g.map.headD [] = List.replicate (g.drawableWidth + 2) '-' := by
    rw [headD_eq_getD_zero]
    exact WF_row0 hg
  have hwidth : (g.map.headD []).length = g.drawableWidth + 2 := by
    rw [hhead]
    simp
  have hheight : g.map.length = g.drawableHeight + 2 := hg.hlen
  have hw1 := hg.hw
  have hh1 := hg.hh
  have heq := readFromFile_eq_ok g.toString g.map hlines
    (by rw [hheight]; omega)
    (by rw [hwidth]; omega)
    (by
      rw [hwidth]
      apply checkLens_none_of
      intro l hl
      obtain ⟨r, hr, hl'⟩ := mem_map_getD hl
      rw [hl']
      exact hg.hrows r (by rw [← hheight]; exact hr))
    (by
      push_neg
      rw [hwidth]
      constructor
      · exact WF_row0 hg
      · have hlast : g.map.length - 1 = g.drawableHeight + 1 := by rw [hheight]; omega
        rw [hlast]
        exact WF_rowLast hg)
    (by
      rw [hwidth]
      apply checkSides_none_of
      intro l hl
      obtain ⟨i, hi, hl'⟩ := List.mem_iff_getElem.mp hl
      have hilen : ((g.map.drop 1).dropLast).length = g.drawableHeight := by
        rw [List.length_dropLast, List.length_drop, hheight]; omega
      have hi' : i < g.drawableHeight := by rw [hilen] at hi; exact hi
      have hbound : 1 + i < g.map.length := by rw [hheight]; omega
      have hidx : l = g.map.getD (1 + i) [] := by
        rw [← hl', List.getElem_dropLast, List.getElem_drop,
          List.getD_eq_getElem _ _ hbound]
      constructor
      · have hpipe := hg.hleft (1 + i) (by omega) (by omega)
        unfold AsciiMap.cellAt at hpipe
        rw [hidx]
        exact hpipe
      · have hpipe := hg.hright (1 + i) (by omega) (by omega)
        unfold AsciiMap.cellAt at hpipe
        rw [hidx]
        exact hpipe)
  have hsub1 : (g.map.headD []).length - 2 = g.drawableWidth := by rw [hwidth]; omega
  have hsub2 : g.map.length - 2 = g.drawableHeight := by rw [hheight]; omega
  rw [hsub1, hsub2, create_natCast _ _ hw1 hh1] at heq
  dsimp only at heq
  obtain ⟨p1, p2, p3, p4, p5⟩ := populate_spec g.map g.drawableWidth g.drawableHeight
    ⟨g.drawableWidth, g.drawableHeight, initMap g.drawableWidth g.drawableHeight⟩
    (initMap_length _ _)
    (fun r hr => initMap_rowLength _ _ r hr)
  refine ⟨_, heq, ?_, p1, p2⟩
  apply maps_ext
  · rw [p3]
    exact hheight.symm
  · intro r hr
    rw [p3] at hr
    rw [p4 r hr]
    exact (hg.hrows r hr).symm
  · intro r c
    rw [p5 r c]
    split_ifs with hint
    · rfl
    · exact initMap_cell_eq_WF hg r c hint

theorem populate_preserves_WF (lines : List (List Char)) (dw dh : ℕ) (inst : AsciiMap)
    (hw : inst.drawableWidth = dw) (hh : inst.drawableHeight = dh) (hg : WF inst) :
    WF (populate lines dw dh inst) := by
  unfold populate
  refine (foldl_preserve
    (fun a => WF a ∧ a.drawableWidth = dw ∧ a.drawableHeight = dh) _ _ inst
    ⟨hg, hw, hh⟩ ?_).1
  intro y acc hy hacc
  obtain ⟨hwf, hdw, hdh⟩ := hacc
  refine foldl_preserve
    (fun a => WF a ∧ a.drawableWidth = dw ∧ a.drawableHeight = dh) _ _ acc
    ⟨hwf, hdw, hdh⟩ ?_
  intro x acc2 hx hacc2
  obtain ⟨hwf2, hdw2, hdh2⟩ := hacc2
  have hy' : y < dh := List.mem_range.mp hy
  have hx' : x < dw := List.mem_range.mp hx
  refine ⟨?_, hdw2, hdh2⟩
  exact WF_setCell hwf2 (y + 1) (x + 1)
    (by omega) (by rw [hdh2]; omega) (by omega) (by rw [hdw2]; omega) _

theorem readFromFile_ok_elim {content : List Char} {g : AsciiMap}
    (h : AsciiMap.readFromFile content = .ok g) :
    3 ≤ (jsSplitLines (jsTrim content)).length
    ∧ 3 ≤ ((jsSplitLines (jsTrim content)).headD []).length
    ∧ g.drawableWidth + 2 = ((jsSplitLines (jsTrim content)).headD []).length
    ∧ g.drawableHeight + 2 = (jsSplitLines (jsTrim content)).length
    ∧ WF g := by
  unfold AsciiMap.readFromFile at h
  dsimp only at h
  by_cases h1 : (jsSplitLines (jsTrim content)).length < 3
  · rw [if_pos h1] at h
    simp at h
  · rw [if_neg h1] at h
    by_cases h2 : ((jsSplitLines (jsTrim content)).headD []).length < 3
    · rw [if_pos h2] at h
      simp at h
    · rw [if_neg h2] at h
      cases hcl : checkLens ((jsSplitLines (jsTrim content)).headD []).length 1
          (jsSplitLines (jsTrim content)) with
      | some pair =>
        rcases pair with ⟨n, a⟩
        rw [hcl] at h
        simp at h
      | none =>
        rw [hcl] at h
        dsimp only at h
        by_cases h3 : (jsSplitLines (jsTrim content)).getD 0 []
              ≠ List.replicate ((jsSplitLines (jsTrim content)).headD []).length '-'
            ∨ (jsSplitLines (jsTrim content)).getD
                ((jsSplitLines (jsTrim content)).length - 1) []
              ≠ List.replicate ((jsSplitLines (jsTrim content)).headD []).length '-'
        · rw [if_pos h3] at h
          simp at h
        · rw [if_neg h3] at h
          cases hcs : checkSides ((jsSplitLines (jsTrim content)).headD []).length 2
              (((jsSplitLines (jsTrim content)).drop 1).dropLast) with
          | some n =>
            rw [hcs] at h
            simp at h
          | none =>
            rw [hcs] at h
            dsimp only at h
            have hw2 : 1 ≤ ((jsSplitLines (jsTrim content)).headD []).length - 2 := by
              omega
            have hh2 : 1 ≤ (jsSplitLines (jsTrim content)).length - 2 := by omega
            have hcreate := create_natCast _ _ hw2 hh2
            rw [hcreate] at h
            dsimp only at h
            have hgeq := Except.ok.inj h
            have hinstWF := (create_WF hcreate).1
            have hwf : WF g := by
              rw [← hgeq]
              exact populate_preserves_WF _ _ _ _ rfl rfl hinstWF
            refine ⟨by omega, by omega, ?_, ?_, hwf⟩
            · rw [← hgeq]
              obtain ⟨p1, -, -, -, -⟩ := populate_spec (jsSplitLines (jsTrim content))
                (((jsSplitLines (jsTrim content)).headD []).length - 2)
                ((jsSplitLines (jsTrim content)).length - 2)
                ⟨((jsSplitLines (jsTrim content)).headD []).length - 2,
                  (jsSplitLines (jsTrim content)).length - 2,
                  initMap (((jsSplitLines (jsTrim content)).headD []).length - 2)
                    ((jsSplitLines (jsTrim content)).length - 2)⟩
                (initMap_length _ _) (fun r hr => initMap_rowLength _ _ r hr)
              rw [p1]
              dsimp only
              omega
            · rw [← hgeq]
              obtain ⟨-, p2, -, -, -⟩ := populate_spec (jsSplitLines (jsTrim content))
                (((jsSplitLines (jsTrim content)).headD []).length - 2)
                ((jsSplitLines (jsTrim content)).length - 2)
                ⟨((jsSplitLines (jsTrim content)).headD []).length - 2,
                  (jsSplitLines (jsTrim content)).length - 2,
                  initMap (((jsSplitLines (jsTrim content)).headD []).length - 2)
                    ((jsSplitLines (jsTrim content)).length - 2)⟩
                (initMap_length _ _) (fun r hr => initMap_rowLength _ _ r hr)
              rw [p2]
              dsimp only
              omega

theorem readFromFile_error_elim {content : List Char} {e : MapError}
    (h : AsciiMap.readFromFile content = .error e) :
    e ≠ .dimNotInteger ∧ e ≠ .dimTooSmall := by
  unfold AsciiMap.readFromFile at h
  dsimp only at h
  by_cases h1 : (jsSplitLines (jsTrim content)).length < 3
  · rw [if_pos h1] at h
    have he := Except.error.inj h
    rw [← he]
    exact ⟨by simp, by simp⟩
  · rw [if_neg h1] at h
    by_cases h2 : ((jsSplitLines (jsTrim content)).headD []).length < 3
    · rw [if_pos h2] at h
      have he := Except.error.inj h
      rw [← he]
      exact ⟨by simp, by simp⟩
    · rw [if_neg h2] at h
      cases hcl : checkLens ((jsSplitLines (jsTrim content)).headD []).length 1
          (jsSplitLines (jsTrim content)) with
      | some pair =>
        rcases pair with ⟨n, a⟩
        rw [hcl] at h
        dsimp only at h
        have he := Except.error.inj h
        rw [← he]
        exact ⟨by simp, by simp⟩
      | none =>
        rw [hcl] at h
        dsimp only at h
        by_cases h3 : (jsSplitLines (jsTrim content)).getD 0 []
              ≠ List.replicate ((jsSplitLines (jsTrim content)).headD []).length '-'
            ∨ (jsSplitLines (jsTrim content)).getD
                ((jsSplitLines (jsTrim content)).length - 1) []
              ≠ List.replicate ((jsSplitLines (jsTrim content)).headD []).length '-'
        · rw [if_pos h3] at h
          have he := Except.error.inj h
          rw [← he]
          exact ⟨by simp, by simp⟩
        · rw [if_neg h3] at h
          cases hcs : checkSides ((jsSplitLines (jsTrim content)).headD []).length 2
              (((jsSplitLines (jsTrim content)).drop 1).dropLast) with
          | some n =>
            rw [hcs] at h
            dsimp only at h
            have he := Except.error.inj h
            rw [← he]
            exact ⟨by simp, by simp⟩
          | none =>
            rw [hcs] at h
            dsimp only at h
            have hw2 : 1 ≤ ((jsSplitLines (jsTrim content)).headD []).length - 2 := by
              omega
            have hh2 : 1 ≤ (jsSplitLines (jsTrim content)).length - 2 := by omega
            rw [create_natCast _ _ hw2 hh2] at h
            simp at h

theorem move_any_WF {g : AsciiMap} {a b d e : ℚ} {g2 : AsciiMap}
    {err : Option MapError} (hg : WF g) (h : g.move a b d e = (g2, err)) : WF g2 := by
  cases err with
  | none => exact WF_move hg h
  | some e2 => rw [move_fail_eq h]; exact hg

theorem Reach_WF {g : AsciiMap} (h : Reach g) : WF g := by
  induction h with
  | create w hh g hok => exact (create_WF hok).1
  | readFromFile content g hok => exact (readFromFile_ok_elim hok).2.2.2.2
  | place g x y c g2 e hr hp ih => exact place_any_WF ih hp
  | move g a b d dd ee g2 e hr hm ih => exact move_any_WF ih hm
  | delete g x y g2 e hr hd ih =>
    unfold AsciiMap.delete at hd
    exact place_any_WF ih hd
  | clear g hr ih => exact clear_preserves_WF ih
  | placeMultiple g ps g2 e hr hpm ih => exact placeMultiple_preserves_WF ps g g2 e ih hpm

/-- C2 counterexample: the concrete scenario of the claim is false on the
code at the stated inputs: after create(3,2) and place(1,1,X), row index 2
of toString is not the claimed literal (the X lands one cell further
right), so the claimed three-part derivation does not hold. -/
theorem C2_claim_false :
    ¬((getOk (AsciiMap.create 3 2)).toString = "-----\n|   |\n|   |\n-----".toList
      ∧ (((((getOk (AsciiMap.create 3 2)).place 1 1 ['X']).1.toString).splitOn '\n').getD 2 [])
          = "|X  |".toList
      ∧ ((((((getOk (AsciiMap.create 3 2)).place 1 1 ['X']).1.move 1 1 2 0).1.toString).splitOn '\n').getD 1 [])
          = "| X |".toList) := by
  decide

/-- C2 amended: after create(3,2), toString equals the claimed literal;
place(1,1,X) succeeds and row index 2 of toString becomes the row with X
in its middle cell; move(1,1,2,0) succeeds and row index 1 becomes the
row with X in its last drawable cell. -/
theorem C2_scenario :
    (getOk (AsciiMap.create 3 2)).toString = "-----\n|   |\n|   |\n-----".toList
    ∧ ((getOk (AsciiMap.create 3 2)).place 1 1 ['X']).2 = none
    ∧ (((((getOk (AsciiMap.create 3 2)).place 1 1 ['X']).1.toString).splitOn '\n').getD 2 [])
        = "| X |".toList
    ∧ (((getOk (AsciiMap.create 3 2)).place 1 1 ['X']).1.move 1 1 2 0).2 = none
    ∧ ((((((getOk (AsciiMap.create 3 2)).place 1 1 ['X']).1.move 1 1 2 0).1.toString).splitOn '\n').getD 1 [])
        = "|  X|".toList := by
  decide

/-- C3 counterexample: place accepts any single character, so a reachable
grid can hold a control character (the bell character, code 7) in a cell,
refuting the printable-or-space part of the claimed invariant. -/
theorem C3_claim_false :
    ((getOk (AsciiMap.create 1 1)).place 0 0 [Char.ofNat 7]).2 = none
    ∧ specPrintableOrSpace
        (((getOk (AsciiMap.create 1 1)).place 0 0 [Char.ofNat 7]).1.cellAt 1 1) = false := by
  decide

/-- C3 amended: in every grid reachable by construction, parse, and any
sequence of place, move, delete, clear and placeMultiple calls, row 0 and
row height-1 consist entirely of dashes and column 0 and column width-1
of every interior row are pipes; each cell holds one character (by the
type of the cell array), but it need not be printable. -/
theorem C3_border_invariant {g : AsciiMap} (h : Reach g) :
    (∀ c, c < g.width → g.cellAt 0 c = '-' ∧ g.cellAt (g.height - 1) c = '-')
    ∧ (∀ r, 1 ≤ r → r ≤ g.drawableHeight →
        g.cellAt r 0 = '|' ∧ g.cellAt r (g.width - 1) = '|') := by
  have hg := Reach_WF h
  constructor
  · intro c hc
    have hc' : c < g.drawableWidth + 2 := hc
    refine ⟨hg.htop c hc', ?_⟩
    have hh : g.height - 1 = g.drawableHeight + 1 := rfl
    rw [hh]
    exact hg.hbot c hc'
  · intro r h1 h2
    refine ⟨hg.hleft r h1 h2, ?_⟩
    have hw : g.width - 1 = g.drawableWidth + 1 := rfl
    rw [hw]
    exact hg.hright r h1 h2

/-- C3 witness: the border facts instantiated on the freshly constructed
1 by 1 grid. -/
theorem C3_border_invariant_witness :
    (∀ c, c < (getOk (AsciiMap.create 1 1)).width →
      (getOk (AsciiMap.create 1 1)).cellAt 0 c = '-'
      ∧ (getOk (AsciiMap.create 1 1)).cellAt ((getOk (AsciiMap.create 1 1)).height - 1) c = '-')
    ∧ (∀ r, 1 ≤ r → r ≤ (getOk (AsciiMap.create 1 1)).drawableHeight →
        (getOk (AsciiMap.create 1 1)).cellAt r 0 = '|'
        ∧ (getOk (AsciiMap.create 1 1)).cellAt r ((getOk (AsciiMap.create 1 1)).width - 1) = '|') :=
  C3_border_invariant (Reach.create 1 1 (getOk (AsciiMap.create 1 1)) (by decide))

/-- C7: the five validations of readFromFile run in source order with the
first failure reported: a 2-line file is rejected as too few lines even
though its lines also differ in length; a 3-line file whose first line
has fewer than 3 characters is rejected as too narrow even though its
lines also differ in length and its borders are wrong; a length mismatch
is reported for the first offending line by 1-based number with actual
and expected lengths, before any border check; a non-dash first row is
rejected as a top or bottom border error before the side check; an
interior row not delimited by pipes is rejected with its 1-based line
number. -/
theorem C7_parse_validation_order :
    AsciiMap.readFromFile ("--\n----".toList) = .error .tooFewLines
    ∧ AsciiMap.readFromFile ("--\n#z\n----".toList) = .error .tooNarrow
    ∧ AsciiMap.readFromFile ("xxxxx\n|  |\n|123|\n-----".toList)
        = .error (.lineLengthMismatch 2 4 5)
    ∧ AsciiMap.readFromFile ("x----\n!   |\n-----".toList)
        = .error .invalidTopBottomBorder
    ∧ AsciiMap.readFromFile ("-----\n!   |\n-----".toList)
        = .error (.invalidSideBorder 2) := by
  decide

/-- C10: the character check of place precedes the coordinate checks: a
char argument that is not a single character raises InvalidCharacter and
leaves the grid unchanged even when the coordinates are non-integer or
out of range. -/
theorem C10_invalidCharacter_precedence (g : AsciiMap) (x y : ℚ) (c : List Char)
    (hc : c.length ≠ 1) : g.place x y c = (g, some .invalidCharacter) := by
  unfold AsciiMap.place
  rw [if_pos hc]

/-- C10 witness: a two-character string with a non-integer x and an
out-of-range negative y still raises InvalidCharacter. -/
theorem C10_invalidCharacter_precedence_witness :
    (getOk (AsciiMap.create 2 2)).place (mkRat 3 2) (-7) ['a', 'b']
      = (getOk (AsciiMap.create 2 2), some .invalidCharacter) :=
  C10_invalidCharacter_precedence (getOk (AsciiMap.create 2 2)) (mkRat 3 2) (-7)
    ['a', 'b'] (by decide)

/-- C1 counterexample: place accepts the newline character, and a grid
holding a newline serializes to text whose lines no longer all have the
expected width, so parsing the written text fails instead of reproducing
the grid. -/
theorem C1_claim_false :
    ((getOk (AsciiMap.create 1 1)).place 0 0 ['\n']).2 = none
    ∧ AsciiMap.readFromFile (((getOk (AsciiMap.create 1 1)).place 0 0 ['\n']).1.toString)
        = .error (.lineLengthMismatch 2 1 3) := by
  decide

/-- C1 amended: for every grid obtained by construction with valid
dimensions followed by any sequence of successful place, move, clear and
placeMultiple calls in which no placed character is the newline
character, parsing the text written by toString yields a grid whose
toString output is byte-identical. -/
theorem C1_roundtrip {g : AsciiMap} (h : ReachNN g) :
    ∃ g2, AsciiMap.readFromFile g.toString = .ok g2 ∧ g2.toString = g.toString := by
  obtain ⟨hg, hn⟩ := ReachNN_WF h
  obtain ⟨g2, hok, hmap, -, -⟩ := toString_parse_roundtrip hg hn
  refine ⟨g2, hok, ?_⟩
  unfold AsciiMap.toString
  rw [hmap]

/-- C1 witness: the round trip instantiated on a freshly constructed 3 by
2 grid. -/
theorem C1_roundtrip_witness :
    ∃ g2, AsciiMap.readFromFile (getOk (AsciiMap.create 3 2)).toString = .ok g2
      ∧ g2.toString = (getOk (AsciiMap.create 3 2)).toString :=
  C1_roundtrip (ReachNN.create 3 2 (getOk (AsciiMap.create 3 2)) (by decide))

/-- C5: place fails with InvalidCharacter exactly when the char argument
is not one character; it fails with OutOfBounds, carrying the offending
pair and the top of the valid inclusive range of each axis, exactly when
the char is valid and x or y is non-integer or out of range; on any
failure the grid is unchanged. -/
theorem C5_place_error_contract (g : AsciiMap) (x y : ℚ) (c : List Char) :
    ((g.place x y c).2 = some .invalidCharacter ↔ c.length ≠ 1)
    ∧ ((g.place x y c).2 = some (.outOfBounds x y ((g.drawableWidth : ℤ) - 1)
          ((g.drawableHeight : ℤ) - 1))
        ↔ (c.length = 1 ∧ (¬x.isInt ∨ ¬y.isInt ∨ x < 0 ∨ (g.drawableWidth : ℚ) ≤ x
            ∨ y < 0 ∨ (g.drawableHeight : ℚ) ≤ y)))
    ∧ (∀ e, (g.place x y c).2 = some e → (g.place x y c).1 = g) := by
  unfold AsciiMap.place
  by_cases h1 : c.length ≠ 1
  · rw [if_pos h1]
    exact ⟨iff_of_true rfl h1, iff_of_false (by simp) (fun hcon => h1 hcon.1),
      fun e _ => rfl⟩
  · rw [if_neg h1]
    by_cases h2 : ¬x.isInt ∨ ¬y.isInt ∨ x < 0 ∨ (g.drawableWidth : ℚ) ≤ x
        ∨ y < 0 ∨ (g.drawableHeight : ℚ) ≤ y
    · rw [if_pos h2]
      exact ⟨iff_of_false (by simp) h1, iff_of_true rfl ⟨not_ne_iff.mp h1, h2⟩,
        fun e _ => rfl⟩
    · rw [if_neg h2]
      exact ⟨iff_of_false (by simp) h1, iff_of_false (by simp) (fun hcon => h2 hcon.2),
        fun e he => absurd he (by simp)⟩

/-- C5 witness: a non-integer x coordinate with a valid character raises
OutOfBounds carrying the pair and both inclusive range tops, and the grid
is unchanged. -/
theorem C5_place_error_contract_witness :
    ((getOk (AsciiMap.create 2 2)).place (mkRat 3 2) 0 ['a']).2
      = some (.outOfBounds (mkRat 3 2) 0
          (((getOk (AsciiMap.create 2 2)).drawableWidth : ℤ) - 1)
          (((getOk (AsciiMap.create 2 2)).drawableHeight : ℤ) - 1))
    ∧ ((getOk (AsciiMap.create 2 2)).place (mkRat 3 2) 0 ['a']).1
      = getOk (AsciiMap.create 2 2) := by
  have h := C5_place_error_contract (getOk (AsciiMap.create 2 2)) (mkRat 3 2) 0 ['a']
  have hout := h.2.1.mpr ⟨by decide, by decide⟩
  exact ⟨hout, h.2.2 _ hout⟩

/-- C9: for every file content, readFromFile never propagates either
constructor dimension error, and on success the grid dimensions are the
line width minus 2 and the line count minus 2, both at least 1. -/
theorem C9_parse_constructor_unreachable (content : List Char) :
    (∀ e, AsciiMap.readFromFile content = .error e →
      e ≠ .dimNotInteger ∧ e ≠ .dimTooSmall)
    ∧ (∀ g, AsciiMap.readFromFile content = .ok g →
        1 ≤ g.drawableWidth ∧ 1 ≤ g.drawableHeight
        ∧ g.drawableWidth + 2 = ((jsSplitLines (jsTrim content)).headD []).length
        ∧ g.drawableHeight + 2 = (jsSplitLines (jsTrim content)).length) := by
  constructor
  · intro e he
    exact readFromFile_error_elim he
  · intro g hok
    obtain ⟨-, -, hw, hh, hwf⟩ := readFromFile_ok_elim hok
    exact ⟨hwf.hw, hwf.hh, hw, hh⟩

/-- C9 witness: the dimension facts instantiated on a parsed 3 by 3 file. -/
theorem C9_parse_constructor_unreachable_witness :
    1 ≤ (getOk (AsciiMap.readFromFile ("---\n| |\n---".toList))).drawableWidth
    ∧ 1 ≤ (getOk (AsciiMap.readFromFile ("---\n| |\n---".toList))).drawableHeight
    ∧ (getOk (AsciiMap.readFromFile ("---\n| |\n---".toList))).drawableWidth + 2
      = ((jsSplitLines (jsTrim ("---\n| |\n---".toList))).headD []).length
    ∧ (getOk (AsciiMap.readFromFile ("---\n| |\n---".toList))).drawableHeight + 2
      = (jsSplitLines (jsTrim ("---\n| |\n---".toList))).length :=
  (C9_parse_constructor_unreachable ("---\n| |\n---".toList)).2
    (getOk (AsciiMap.readFromFile ("---\n| |\n---".toList))) (by decide)

theorem cells_ext (m1 m2 : List (List Char)) (hl : m1.length = m2.length)
    (hr : ∀ r, r < m1.length → (m1.getD r []).length = (m2.getD r []).length)
    (hc : ∀ r c, (m1.getD r []).getD c ' ' = (m2.getD r []).getD c ' ') : m1 = m2 := by
  apply List.ext_getElem hl
  intro n h1 h2
  apply List.ext_getElem
  · have hlen := hr n h1
    rw [List.getD_eq_getElem _ _ h1, List.getD_eq_getElem _ _ h2] at hlen
    exact hlen
  · intro m hm1 hm2
    have hcell := hc n m
    rw [List.getD_eq_getElem _ _ h1, List.getD_eq_getElem _ _ h2] at hcell
    rw [List.getD_eq_getElem _ _ hm1, List.getD_eq_getElem _ _ hm2] at hcell
    exact hcell

theorem nat_coords_guard_false (dw dh x y : ℕ) (hx : x < dw) (hy : y < dh) :
    ¬(¬((x : ℚ)).isInt ∨ ¬((y : ℚ)).isInt ∨ (x : ℚ) < 0 ∨ (dw : ℚ) ≤ (x : ℚ)
      ∨ (y : ℚ) < 0 ∨ (dh : ℚ) ≤ (y : ℚ)) := by
  push_neg
  refine ⟨?_, ?_, ?_, ?_, ?_, ?_⟩
  · exact rat_natCast_isInt x
  · exact rat_natCast_isInt y
  · exact Nat.cast_nonneg x
  · exact_mod_cast hx
  · exact Nat.cast_nonneg y
  · exact_mod_cast hy

theorem place_nat_eval (g : AsciiMap) (x y : ℕ)
    (hx : x < g.drawableWidth) (hy : y < g.drawableHeight) (c : Char) :
    g.place (x : ℚ) (y : ℚ) [c]
      = ({ g with map := setCell g.map (y + 1) (x + 1) c }, none) := by
  unfold AsciiMap.place
  rw [if_neg (show ¬([c].length ≠ 1) by simp)]
  rw [if_neg (nat_coords_guard_false g.drawableWidth g.drawableHeight x y hx hy)]
  rw [rat_natCast_num_toNat x, rat_natCast_num_toNat y]
  rfl

theorem move_nat_eval (g : AsciiMap) (sx sy ex ey : ℕ)
    (hsx : sx < g.drawableWidth) (hsy : sy < g.drawableHeight)
    (hex : ex < g.drawableWidth) (hey : ey < g.drawableHeight) :
    g.move (sx : ℚ) (sy : ℚ) (ex : ℚ) (ey : ℚ) =
      if g.cellAt (sy + 1) (sx + 1) = ' ' then (g, some (.emptySource (sx : ℚ) (sy : ℚ)))
      else (AsciiMap.mk g.drawableWidth g.drawableHeight
        (setCell (setCell g.map (sy + 1) (sx + 1) ' ') (ey + 1) (ex + 1)
          (g.cellAt (sy + 1) (sx + 1))), none) := by
  unfold AsciiMap.move
  rw [if_neg (nat_coords_guard_false _ _ sx sy hsx hsy),
    if_neg (nat_coords_guard_false _ _ ex ey hex hey)]
  dsimp only
  rw [rat_natCast_num_toNat sx, rat_natCast_num_toNat sy,
    rat_natCast_num_toNat ex, rat_natCast_num_toNat ey]
  rfl

/-- C6: for every in-range coordinate pair and single character, place
succeeds, overwrites the cell at internal position row y+1 and column x+1
unconditionally so that reading it back yields the character, and every
other cell is unchanged. -/
theorem C6_place_effect (g : AsciiMap) (hg : WF g) (x y : ℕ)
    (hx : x < g.drawableWidth) (hy : y < g.drawableHeight) (c : Char) :
    (g.place (x : ℚ) (y : ℚ) [c]).2 = none
    ∧ (g.place (x : ℚ) (y : ℚ) [c]).1.cellAt (y + 1) (x + 1) = c
    ∧ ∀ r cc, (r, cc) ≠ (y + 1, x + 1) →
        (g.place (x : ℚ) (y : ℚ) [c]).1.cellAt r cc = g.cellAt r cc := by
  rw [place_nat_eval g x y hx hy c]
  refine ⟨rfl, ?_, ?_⟩
  · show ((setCell g.map (y + 1) (x + 1) c).getD (y + 1) []).getD (x + 1) ' ' = c
    exact setCell_get_same _ _ _ _ (by rw [hg.hlen]; omega)
      (by rw [hg.hrows (y + 1) (by omega)]; omega)
  · intro r cc hne
    show ((setCell g.map (y + 1) (x + 1) c).getD r []).getD cc ' '
      = (g.map.getD r []).getD cc ' '
    apply setCell_get_ne
    have h' : ¬(r = y + 1 ∧ cc = x + 1) := by
      simpa [Prod.ext_iff] using hne
    exact not_and_or.mp h'

/-- C6 witness: placing Z at coordinates (1, 0) of the 3 by 2 grid
succeeds and reading back the internal cell yields Z. -/
theorem C6_place_effect_witness :
    ((getOk (AsciiMap.create 3 2)).place ((1 : ℕ) : ℚ) ((0 : ℕ) : ℚ) ['Z']).2 = none
    ∧ ((getOk (AsciiMap.create 3 2)).place ((1 : ℕ) : ℚ) ((0 : ℕ) : ℚ) ['Z']).1.cellAt
        (0 + 1) (1 + 1) = 'Z' := by
  have h0 : AsciiMap.create 3 2 = .ok (getOk (AsciiMap.create 3 2)) := by decide
  have h := C6_place_effect (getOk (AsciiMap.create 3 2)) (create_WF h0).1 1 0
    (by decide) (by decide) 'Z'
  exact ⟨h.1, h.2.1⟩

/-- C4: for in-range coordinates, when the source cell is non-empty, move
succeeds, the destination cell receives the character read from the
source, the source cell becomes a blank when source and destination
differ, no other cell changes, and when source equals destination the
cell contents are untouched; when the source cell is a blank, move fails
with EmptySource and the grid is unchanged. -/
theorem C4_move_contract (g : AsciiMap) (hg : WF g) (sx sy ex ey : ℕ)
    (hsx : sx < g.drawableWidth) (hsy : sy < g.drawableHeight)
    (hex : ex < g.drawableWidth) (hey : ey < g.drawableHeight) :
    (g.cellAt (sy + 1) (sx + 1) ≠ ' ' →
      (g.move (sx : ℚ) (sy : ℚ) (ex : ℚ) (ey : ℚ)).2 = none
      ∧ (g.move (sx : ℚ) (sy : ℚ) (ex : ℚ) (ey : ℚ)).1.cellAt (ey + 1) (ex + 1)
          = g.cellAt (sy + 1) (sx + 1)
      ∧ ((sx, sy) ≠ (ex, ey) →
          (g.move (sx : ℚ) (sy : ℚ) (ex : ℚ) (ey : ℚ)).1.cellAt (sy + 1) (sx + 1) = ' ')
      ∧ (∀ r c, (r, c) ≠ (sy + 1, sx + 1) → (r, c) ≠ (ey + 1, ex + 1) →
          (g.move (sx : ℚ) (sy : ℚ) (ex : ℚ) (ey : ℚ)).1.cellAt r c = g.cellAt r c)
      ∧ ((sx, sy) = (ex, ey) →
          (g.move (sx : ℚ) (sy : ℚ) (ex : ℚ) (ey : ℚ)).1.map = g.map))
    ∧ (g.cellAt (sy + 1) (sx + 1) = ' ' →
        g.move (sx : ℚ) (sy : ℚ) (ex : ℚ) (ey : ℚ)
          = (g, some (.emptySource (sx : ℚ) (sy : ℚ)))) := by
  rw [move_nat_eval g sx sy ex ey hsx hsy hex hey]
  constructor
  · intro hsrc
    rw [if_neg hsrc]
    have hL1 : (setCell g.map (sy + 1) (sx + 1) ' ').length = g.drawableHeight + 2 := by
      rw [setCell_length]
      exact hg.hlen
    refine ⟨rfl, ?_, ?_, ?_, ?_⟩
    · show ((setCell (setCell g.map (sy + 1) (sx + 1) ' ') (ey + 1) (ex + 1)
          (g.cellAt (sy + 1) (sx + 1))).getD (ey + 1) []).getD (ex + 1) ' ' = _
      exact setCell_get_same _ _ _ _ (by rw [hL1]; omega)
        (by rw [setCell_rowLength, hg.hrows (ey + 1) (by omega)]; omega)
    · intro hne
      have hne2 : ¬(sx = ex ∧ sy = ey) := by
        simpa [Prod.ext_iff] using hne
      have hne' : sy + 1 ≠ ey + 1 ∨ sx + 1 ≠ ex + 1 := by omega
      show ((setCell (setCell g.map (sy + 1) (sx + 1) ' ') (ey + 1) (ex + 1)
          (g.cellAt (sy + 1) (sx + 1))).getD (sy + 1) []).getD (sx + 1) ' ' = ' '
      rw [setCell_get_ne _ _ _ _ _ _ hne']
      exact setCell_get_same _ _ _ _ (by rw [hg.hlen]; omega)
        (by rw [hg.hrows (sy + 1) (by omega)]; omega)
    · intro r c h1 h2
      have h1' : r ≠ sy + 1 ∨ c ≠ sx + 1 := by
        have h1n : ¬(r = sy + 1 ∧ c = sx + 1) := by simpa [Prod.ext_iff] using h1
        tauto
      have h2' : r ≠ ey + 1 ∨ c ≠ ex + 1 := by
        have h2n : ¬(r = ey + 1 ∧ c = ex + 1) := by simpa [Prod.ext_iff] using h2
        tauto
      show ((setCell (setCell g.map (sy + 1) (sx + 1) ' ') (ey + 1) (ex + 1)
          (g.cellAt (sy + 1) (sx + 1))).getD r []).getD c ' '
        = (g.map.getD r []).getD c ' '
      rw [setCell_get_ne _ _ _ _ _ _ h2', setCell_get_ne _ _ _ _ _ _ h1']
    · intro heq
      have hxe : sx = ex := congrArg Prod.fst heq
      have hye : sy = ey := congrArg Prod.snd heq
      subst hxe
      subst hye
      show setCell (setCell g.map (sy + 1) (sx + 1) ' ') (sy + 1) (sx + 1)
          (g.cellAt (sy + 1) (sx + 1)) = g.map
      apply cells_ext
      · rw [setCell_length, setCell_length]
      · intro r _
        rw [setCell_rowLength, setCell_rowLength]
      · intro r c
        by_cases hp : r = sy + 1 ∧ c = sx + 1
        · obtain ⟨hr, hc⟩ := hp
          subst hr
          subst hc
          rw [setCell_get_same _ _ _ _ (by rw [setCell_length, hg.hlen]; omega)
            (by rw [setCell_rowLength, hg.hrows (r := sy + 1) (by omega)]; omega)]
          rfl
        · have hp' : r ≠ sy + 1 ∨ c ≠ sx + 1 := not_and_or.mp hp
          rw [setCell_get_ne _ _ _ _ _ _ hp', setCell_get_ne _ _ _ _ _ _ hp']
  · intro hsrc
    rw [if_pos hsrc]

/-- C4 witness: moving the X placed at (1, 1) of the 3 by 2 grid to
(2, 0) succeeds and the destination cell receives the moved character. -/
theorem C4_move_contract_witness :
    (((getOk (AsciiMap.create 3 2)).place 1 1 ['X']).1.move
        ((1 : ℕ) : ℚ) ((1 : ℕ) : ℚ) ((2 : ℕ) : ℚ) ((0 : ℕ) : ℚ)).2 = none
    ∧ (((getOk (AsciiMap.create 3 2)).place 1 1 ['X']).1.move
        ((1 : ℕ) : ℚ) ((1 : ℕ) : ℚ) ((2 : ℕ) : ℚ) ((0 : ℕ) : ℚ)).1.cellAt (0 + 1) (2 + 1)
      = ((getOk (AsciiMap.create 3 2)).place 1 1 ['X']).1.cellAt (1 + 1) (1 + 1) := by
  have h0 : AsciiMap.create 3 2 = .ok (getOk (AsciiMap.create 3 2)) := by decide
  have hp : (getOk (AsciiMap.create 3 2)).place 1 1 ['X']
      = (((getOk (AsciiMap.create 3 2)).place 1 1 ['X']).1, none) := by decide
  have hwf := WF_place (create_WF h0).1 hp
  have h := C4_move_contract (((getOk (AsciiMap.create 3 2)).place 1 1 ['X']).1) hwf
    1 1 2 0 (by decide) (by decide) (by decide) (by decide)
  have h1 := h.1 (by decide)
  exact ⟨h1.1, h1.2.1⟩

/-- C8: placeMultiple applies place to each triple in sequence order and
stops at the first failure: if every triple of the prefix succeeds,
yielding an intermediate grid, and the next triple fails on that grid,
the whole call returns that intermediate grid together with the error of
the failing place, leaving the earlier placements applied and never
reaching the remaining triples. -/
theorem C8_placeMultiple_failfast :
    ∀ (pre : List Placement) (g gpre : AsciiMap) (bad : Placement)
      (post : List Placement) (e : MapError),
    g.placeMultiple pre = (gpre, none) →
    (gpre.place bad.x bad.y bad.char).2 = some e →
    g.placeMultiple (pre ++ bad :: post) = (gpre, some e) := by
  intro pre
  induction pre with
  | nil =>
    intro g gpre bad post e hpre hbad
    unfold AsciiMap.placeMultiple at hpre
    simp only [Prod.mk.injEq] at hpre
    obtain ⟨hge, -⟩ := hpre
    subst hge
    have hpair : g.place bad.x bad.y bad.char
        = ((g.place bad.x bad.y bad.char).1, some e) := by
      rw [← hbad]
    have hfst := place_fail_eq hpair
    rw [hfst] at hpair
    rw [List.nil_append]
    unfold AsciiMap.placeMultiple
    rw [hpair]
  | cons p rest ih =>
    intro g gpre bad post e hpre hbad
    rw [List.cons_append]
    unfold AsciiMap.placeMultiple at hpre ⊢
    rcases hp : g.place p.x p.y p.char with ⟨gm, eo⟩
    rw [hp] at hpre
    cases eo with
    | none =>
      dsimp only at hpre ⊢
      exact ih gm gpre bad post e hpre hbad
    | some e2 =>
      dsimp only at hpre
      simp at hpre

/-- C8 witness: a three-triple sequence whose second triple is out of
bounds stops after the first placement, returning the grid with the first
character applied and the out-of-bounds error of the second. -/
theorem C8_placeMultiple_failfast_witness :
    (getOk (AsciiMap.create 2 1)).placeMultiple
        [⟨0, 0, ['A']⟩, ⟨5, 5, ['B']⟩, ⟨1, 0, ['C']⟩]
      = (((getOk (AsciiMap.create 2 1)).place 0 0 ['A']).1,
        some (.outOfBounds 5 5 1 0)) :=
  C8_placeMultiple_failfast [⟨0, 0, ['A']⟩] (getOk (AsciiMap.create 2 1))
    (((getOk (AsciiMap.create 2 1)).place 0 0 ['A']).1) ⟨5, 5, ['B']⟩ [⟨1, 0, ['C']⟩]
    (.outOfBounds 5 5 1 0) (by decide) (by decide)
